import Mathlib

/-!
# PocketFrame — verification of the core numeric pipeline

Shallow embedding of the pure numeric core of the PocketFrame video
converter, translated from the TypeScript sources:

* `src/processing/dither/floydSteinberg.ts` — nearest-palette search and
  Floyd–Steinberg error diffusion (CPU dither path);
* `src/palettes/index.ts` — the fixed 4-colour palettes and
  `getPaletteAsFloat`;
* `src/utils/resolution.ts` — processing/output resolution arithmetic;
* `src/utils/crop.ts` — crop clamping and normalisation;
* `src/processing/encoders/WebCodecsEncoder.ts` — the frame-capture loop
  of `VideoProcessor.extractFrames` / `extractFramesStreaming`;
* `src/processing/encoders/Mp4Encoder.ts` — the offline audio chain;
* `src/audio/bitcrusher-processor.js` — the live bit-crusher worklet;
* `src/processing/ExportManager.ts` — MP4 encoder selection and fallback.

JavaScript `number` values are modelled as exact rationals (`ℚ`): the byte
and float arithmetic of the dither, crop and audio code never overflows the
double range on the inputs considered here, and every claim under study is
about the exact algebra of the operations, not about rounding of IEEE
doubles.  `Uint8Array` pixel bytes are modelled as integers; the palette
entries stored into output buffers are byte-valued in every palette the
application ships, so the store is exact.
-/

namespace PocketFrame

/-! ## Palette and dither primitives (`floydSteinberg.ts`, `palettes/index.ts`) -/

/-- A palette colour `[r, g, b]` (`PaletteColor` in `palettes/index.ts`). -/
abbrev PaletteColor := ℤ × ℤ × ℤ

/-- The squared-Euclidean RGB distance computed inside the loop of
`findClosestColorIndex`: `dr*dr + dg*dg + db*db` for
`dr = r - color[0]`, `dg = g - color[1]`, `db = b - color[2]`. -/
def sqDist (r g b : ℚ) (color : PaletteColor) : ℚ :=
  let dr := r - (color.1 : ℚ)
  let dg := g - (color.2.1 : ℚ)
  let db := b - (color.2.2 : ℚ)
  dr * dr + dg * dg + db * db

/-- `distance < minDistance` where `minDistance` starts as `Infinity`
(modelled by `none`). -/
def ltMinDistance (d : ℚ) : Option ℚ → Bool
  | none => true
  | some m => decide (d < m)

/-- The scan loop of `findClosestColorIndex`: walks the palette from index
`i`, carrying the best index so far and the minimal distance so far
(`none` = `Infinity`). -/
def findClosestGo (r g b : ℚ) : List PaletteColor → ℕ → ℕ → Option ℚ → ℕ
  | [], _, closestIdx, _ => closestIdx
  | color :: rest, i, closestIdx, minDistance =>
    let distance := sqDist r g b color
    if ltMinDistance distance minDistance then
      findClosestGo r g b rest (i + 1) i (some distance)
    else
      findClosestGo r g b rest (i + 1) closestIdx minDistance

/-- `findClosestColorIndex` from `floydSteinberg.ts`: index of the palette
entry with minimal squared RGB distance to `(r, g, b)`; the strict `<`
update keeps the first (lowest-index) entry on ties. -/
def findClosestColorIndex (r g b : ℚ) (palette : List PaletteColor) : ℕ :=
  findClosestGo r g b palette 0 0 none

/-- `clampChannel` from `floydSteinberg.ts`:
`Math.max(0, Math.min(255, value))`. -/
def clampChannel (value : ℚ) : ℚ :=
  max 0 (min 255 value)

/-- Squared distance from the candidate `(r, g, b)` to the `k`-th palette
entry (out-of-range indices read the `(0,0,0)` default, as `getD` does). -/
def distAt (r g b : ℚ) (palette : List PaletteColor) (k : ℕ) : ℚ :=
  sqDist r g b (palette.getD k (0, 0, 0))

/-- The total of channel `c` (`0` = R, `1` = G, `2` = B) over the flat
interleaved working buffer. -/
def chanSum (c : ℕ) (l : List ℚ) : ℚ :=
  ∑ i ∈ Finset.range l.length, if i % 3 = c then l.getD i 0 else 0

/-- `addError` from `floydSteinberg.ts`.  The working buffer is the flat
`Float32Array` of interleaved RGB channels; `x`/`y` are signed because the
bottom-left diffusion target is `x - 1`.  Both guards of the source are
kept: the coordinate bounds check and the buffer-index check
(`index < 0 || index + 2 >= buffer.length`). -/
def addError (buffer : List ℚ) (width height : ℕ) (x y : ℤ)
    (er eg eb : ℚ) (factor : ℚ) : List ℚ :=
  if x < 0 ∨ y < 0 ∨ (width : ℤ) ≤ x ∨ (height : ℤ) ≤ y then
    buffer
  else
    let index : ℤ := (y * width + x) * 3
    if index < 0 ∨ (buffer.length : ℤ) ≤ index + 2 then
      buffer
    else
      let i := index.toNat
      let b1 := buffer.set i (buffer.getD i 0 + er * factor)
      let b2 := b1.set (i + 1) (b1.getD (i + 1) 0 + eg * factor)
      b2.set (i + 2) (b2.getD (i + 2) 0 + eb * factor)

/-- The initial working buffer of `floydSteinbergDither`: for each pixel
`i`, copy the RGB bytes (dropping alpha) of `pixels[4i .. 4i+2]` into
`working[3i .. 3i+2]`. -/
def initWorking (pixels : List ℤ) (pixelCount : ℕ) : List ℚ :=
  (List.range pixelCount).flatMap fun i =>
    [((pixels.getD (4 * i) 0 : ℤ) : ℚ),
     ((pixels.getD (4 * i + 1) 0 : ℤ) : ℚ),
     ((pixels.getD (4 * i + 2) 0 : ℤ) : ℚ)]

/-- The body of the per-pixel loop of `floydSteinbergDither`: clamp the
accumulated working values, find the nearest palette colour, emit its RGB
bytes with alpha `255`, and diffuse the quantisation error to the four
neighbours.  Returns the updated working buffer and the four output
bytes of this pixel. -/
def ditherPixel (palette : List PaletteColor) (width height : ℕ)
    (x y : ℕ) (working : List ℚ) : List ℚ × List ℤ :=
  let idx := (y * width + x) * 3
  let oldR := clampChannel (working.getD idx 0)
  let oldG := clampChannel (working.getD (idx + 1) 0)
  let oldB := clampChannel (working.getD (idx + 2) 0)
  let colorIdx := findClosestColorIndex oldR oldG oldB palette
  let color := palette.getD colorIdx (0, 0, 0)
  let er := oldR - (color.1 : ℚ)
  let eg := oldG - (color.2.1 : ℚ)
  let eb := oldB - (color.2.2 : ℚ)
  let w1 := addError working width height ((x : ℤ) + 1) (y : ℤ) er eg eb (7 / 16)
  let w2 := addError w1 width height ((x : ℤ) - 1) ((y : ℤ) + 1) er eg eb (3 / 16)
  let w3 := addError w2 width height (x : ℤ) ((y : ℤ) + 1) er eg eb (5 / 16)
  let w4 := addError w3 width height ((x : ℤ) + 1) ((y : ℤ) + 1) er eg eb (1 / 16)
  (w4, [color.1, color.2.1, color.2.2, 255])

/-- The inner `for (x ...)` loop of `floydSteinbergDither`, over one row:
thread the working buffer left to right, concatenating the emitted output
bytes. -/
def ditherRowGo (palette : List PaletteColor) (width height y : ℕ) :
    List ℕ → List ℚ → List ℚ × List ℤ
  | [], working => (working, [])
  | x :: xs, working =>
    let step := ditherPixel palette width height x y working
    let rest := ditherRowGo palette width height y xs step.1
    (rest.1, step.2 ++ rest.2)

/-- The outer `for (y ...)` loop of `floydSteinbergDither`. -/
def ditherRowsGo (palette : List PaletteColor) (width height : ℕ) :
    List ℕ → List ℚ → List ℚ × List ℤ
  | [], working => (working, [])
  | y :: ys, working =>
    let row := ditherRowGo palette width height y (List.range width) working
    let rest := ditherRowsGo palette width height ys row.1
    (rest.1, row.2 ++ rest.2)

/-- `floydSteinbergDither` from `floydSteinberg.ts`: the RGBA output bytes
(row-major, `255` alpha) of error-diffusion dithering `pixels`
(`width*height` RGBA bytes) against `palette`. -/
def floydSteinbergDither (pixels : List ℤ) (width height : ℕ)
    (palette : List PaletteColor) : List ℤ :=
  let pixelCount := width * height
  let working := initWorking pixels pixelCount
  (ditherRowsGo palette width height (List.range height) working).2

/-- The four output bytes one dithered pixel writes: an opaque palette
colour. -/
def rgbaChunk (color : PaletteColor) : List ℤ :=
  [color.1, color.2.1, color.2.2, 255]

/-! ### The dither algorithm as worded by the specification (§4.2)

A second definition of the error-diffusion pass, following the sentences of
the spec rather than the source text: pixels are visited in row-major
order; at each pixel the accumulated value (original plus diffused error)
is clamped to `[0,255]` only at the moment it is read for quantisation;
the nearest palette colour is emitted; and the quantisation error is
distributed to the right neighbour (7/16), bottom-left (3/16), bottom
(5/16) and bottom-right (1/16), skipping targets outside the image.
The float working buffer itself is never clamped. -/

/-- Spec §4.2: add `error * factor` per channel to the pixel at `(x, y)` of
the working buffer, skipping the write when the target lies outside the
`width × height` image. -/
def specDiffuseAt (buffer : List ℚ) (width height : ℕ) (x y : ℤ)
    (er eg eb : ℚ) (factor : ℚ) : List ℚ :=
  if 0 ≤ x ∧ 0 ≤ y ∧ x < (width : ℤ) ∧ y < (height : ℤ) then
    let p := (y.toNat * width + x.toNat) * 3
    let b1 := buffer.set p (buffer.getD p 0 + er * factor)
    let b2 := b1.set (p + 1) (b1.getD (p + 1) 0 + eg * factor)
    b2.set (p + 2) (b2.getD (p + 2) 0 + eb * factor)
  else
    buffer

/-- Spec §4.2: one pixel step — quantise the clamped accumulated value,
emit the palette colour (opaque), then diffuse the quantisation error with
the four Floyd–Steinberg weights. -/
def specPixelStep (palette : List PaletteColor) (width height : ℕ)
    (x y : ℕ) (working : List ℚ) : List ℚ × List ℤ :=
  let p := (y * width + x) * 3
  let accR := clampChannel (working.getD p 0)
  let accG := clampChannel (working.getD (p + 1) 0)
  let accB := clampChannel (working.getD (p + 2) 0)
  let chosen := palette.getD (findClosestColorIndex accR accG accB palette) (0, 0, 0)
  let er := accR - (chosen.1 : ℚ)
  let eg := accG - (chosen.2.1 : ℚ)
  let eb := accB - (chosen.2.2 : ℚ)
  let d1 := specDiffuseAt working width height ((x : ℤ) + 1) (y : ℤ) er eg eb (7 / 16)
  let d2 := specDiffuseAt d1 width height ((x : ℤ) - 1) ((y : ℤ) + 1) er eg eb (3 / 16)
  let d3 := specDiffuseAt d2 width height (x : ℤ) ((y : ℤ) + 1) er eg eb (5 / 16)
  let d4 := specDiffuseAt d3 width height ((x : ℤ) + 1) ((y : ℤ) + 1) er eg eb (1 / 16)
  (d4, [chosen.1, chosen.2.1, chosen.2.2, 255])

/-- Spec §4.2: process a row-major list of pixel coordinates, threading the
floating-point working buffer and concatenating the emitted RGBA bytes. -/
def specDitherGo (palette : List PaletteColor) (width height : ℕ) :
    List (ℕ × ℕ) → List ℚ → List ℚ × List ℤ
  | [], working => (working, [])
  | xy :: rest, working =>
    let step := specPixelStep palette width height xy.1 xy.2 working
    let tail := specDitherGo palette width height rest step.1
    (tail.1, step.2 ++ tail.2)

/-- The row-major coordinate order of the image. -/
def rowMajorCoords (width height : ℕ) : List (ℕ × ℕ) :=
  (List.range height).flatMap fun y => (List.range width).map fun x => (x, y)

/-- The Floyd–Steinberg pass as the specification words it. -/
def floydSteinbergSpec (pixels : List ℤ) (width height : ℕ)
    (palette : List PaletteColor) : List ℤ :=
  let working := initWorking pixels (width * height)
  (specDitherGo palette width height (rowMajorCoords width height) working).2

/-! ### Palettes (`palettes/index.ts`) -/

/-- The palette names of `PALETTES` in `palettes/index.ts`. -/
inductive PaletteName where
  | nineteen89Green
  | pocketGrey
  | midnightBlue
  | highContrastBW
  | redBlack
deriving DecidableEq

/-- The `PALETTES` record: each name maps to exactly four RGB triples. -/
def PALETTES : PaletteName → List PaletteColor
  | .nineteen89Green => [(15, 56, 15), (48, 98, 48), (139, 172, 15), (155, 188, 15)]
  | .pocketGrey => [(0, 0, 0), (85, 85, 85), (170, 170, 170), (255, 255, 255)]
  | .midnightBlue => [(13, 17, 43), (48, 58, 105), (107, 130, 165), (192, 203, 220)]
  | .highContrastBW => [(0, 0, 0), (64, 64, 64), (192, 192, 192), (255, 255, 255)]
  | .redBlack => [(0, 0, 0), (85, 0, 0), (170, 0, 0), (255, 0, 0)]

/-- `[...basePalette].reverse()` as used by `VideoProcessor.processFrame`
when `invertPalette` is set. -/
def paletteReverse (palette : List PaletteColor) : List PaletteColor :=
  palette.reverse

/-- The palette handed to the CPU dither by `VideoProcessor.processFrame`:
the base palette, reversed when `invertPalette` is `true`. -/
def selectPalette (name : PaletteName) (invertPalette : Bool) : List PaletteColor :=
  if invertPalette then paletteReverse (PALETTES name) else PALETTES name

/-- `getPaletteAsFloat` from `palettes/index.ts`: the 12 floats
`palette[srcIdx][c] / 255` for `i = 0..3`, where `srcIdx = invert ? 3 - i : i`. -/
def getPaletteAsFloat (name : PaletteName) (invert : Bool) : List ℚ :=
  let palette := PALETTES name
  (List.range 4).flatMap fun i =>
    let srcIdx := if invert then 3 - i else i
    let c := palette.getD srcIdx (0, 0, 0)
    [(c.1 : ℚ) / 255, (c.2.1 : ℚ) / 255, (c.2.2 : ℚ) / 255]

/-- The float form of an arbitrary palette (the `result[i*3+c] =
palette[i][c] / 255` layout of `getPaletteAsFloat`, without the inversion
indexing). -/
def paletteToFloat (palette : List PaletteColor) : List ℚ :=
  palette.flatMap fun c => [(c.1 : ℚ) / 255, (c.2.1 : ℚ) / 255, (c.2.2 : ℚ) / 255]

/-! ## Resolution utilities (`utils/resolution.ts`, `constants.ts`) -/

/-- `Math.round` on an exact rational: round half away from zero is what
JavaScript does for positive halves; `Math.round(x) = ⌊x + 0.5⌋`. -/
def jsRound (x : ℚ) : ℤ :=
  Int.floor (x + 1 / 2)

/-- `BASE_PIXEL_DENSITY` from `constants.ts`. -/
def BASE_PIXEL_DENSITY : ℕ := 144

/-- `GBCAM_SENSOR_WIDTH` from `constants.ts`. -/
def GBCAM_SENSOR_WIDTH : ℕ := 128

/-- `GBCAM_SENSOR_HEIGHT` from `constants.ts`. -/
def GBCAM_SENSOR_HEIGHT : ℕ := 112

/-- `EXPORT_SCALE.HIGH_QUALITY` from `constants.ts` (MP4/PNG exports). -/
def EXPORT_SCALE_HIGH_QUALITY : ℕ := 4

/-- `EXPORT_SCALE.GIF` from `constants.ts`. -/
def EXPORT_SCALE_GIF : ℕ := 2

/-- The dither modes of the settings store (`state/store.ts`). -/
inductive DitherMode where
  | noDither
  | bayer2x2
  | bayer4x4
  | floydSteinberg
  | gameBoyCamera
deriving DecidableEq

/-- The export formats of the settings store (`state/store.ts`). -/
inductive ExportFormat where
  | mp4
  | gif
  | png
deriving DecidableEq

/-- Output dimensions as a `{width, height}` pair. -/
structure Dimensions where
  width : ℕ
  height : ℕ
deriving DecidableEq

/-- `calculateProcessingResolution` from `utils/resolution.ts`: the fixed
sensor resolution in Game Boy Camera mode; otherwise the shorter dimension
is `BASE_PIXEL_DENSITY` and the longer scales by the source aspect ratio,
rounded. -/
def calculateProcessingResolution (sourceWidth sourceHeight : ℕ)
    (ditherMode : Option DitherMode) : Dimensions :=
  if ditherMode = some .gameBoyCamera then
    ⟨GBCAM_SENSOR_WIDTH, GBCAM_SENSOR_HEIGHT⟩
  else
    let aspectRatio : ℚ := (sourceWidth : ℚ) / (sourceHeight : ℚ)
    if 1 ≤ aspectRatio then
      let height := BASE_PIXEL_DENSITY
      let width := (jsRound ((height : ℚ) * aspectRatio)).toNat
      ⟨width, height⟩
    else
      let width := BASE_PIXEL_DENSITY
      let height := (jsRound ((width : ℚ) / aspectRatio)).toNat
      ⟨width, height⟩

/-- `calculateOutputDimensions` from `utils/resolution.ts`: processing
resolution scaled by the per-format export factor, bumped to even values
for MP4 (H.264 requires even dimensions). -/
def calculateOutputDimensions (sourceWidth sourceHeight : ℕ)
    (format : ExportFormat) (ditherMode : Option DitherMode) : Dimensions :=
  let proc := calculateProcessingResolution sourceWidth sourceHeight ditherMode
  let scale := if format = .gif then EXPORT_SCALE_GIF else EXPORT_SCALE_HIGH_QUALITY
  let width := proc.width * scale
  let height := proc.height * scale
  if format = .mp4 then
    ⟨if width % 2 ≠ 0 then width + 1 else width,
     if height % 2 ≠ 0 then height + 1 else height⟩
  else
    ⟨width, height⟩

/-- `calculateScaledDimensions` from `utils/resolution.ts`: frame
dimensions times `scale`, each bumped to the next even value when
`ensureEven` is set. -/
def calculateScaledDimensions (frameWidth frameHeight scale : ℕ)
    (ensureEven : Bool) : Dimensions :=
  let width := frameWidth * scale
  let height := frameHeight * scale
  if ensureEven then
    ⟨if width % 2 ≠ 0 then width + 1 else width,
     if height % 2 ≠ 0 then height + 1 else height⟩
  else
    ⟨width, height⟩

/-- The output dimensions chosen by the `WebCodecsEncoder` constructor:
`calculateScaledDimensions(frameWidth, frameHeight,
EXPORT_SCALE.HIGH_QUALITY, true)`. -/
def webCodecsOutputDimensions (frameWidth frameHeight : ℕ) : Dimensions :=
  calculateScaledDimensions frameWidth frameHeight EXPORT_SCALE_HIGH_QUALITY true

/-! ## Crop utilities (`utils/crop.ts`)

`Number.isFinite` guards of the source are identically true in the exact
rational model (`ℚ` has no `NaN`/`Infinity`), so the non-finite fallback
branches are unreachable and the sanitised `input` equals `region`. -/

/-- `CropRegionNormalizedLike` / `CropRegionPixels`: an `{x, y, width,
height}` rectangle. -/
structure CropRegion where
  x : ℚ
  y : ℚ
  width : ℚ
  height : ℚ
deriving DecidableEq

/-- `GBCAM_CROP_ASPECT = GBCAM_SENSOR_WIDTH / GBCAM_SENSOR_HEIGHT`
(`= 128/112 = 8/7`) from `constants.ts`. -/
def GBCAM_CROP_ASPECT : ℚ := (GBCAM_SENSOR_WIDTH : ℚ) / (GBCAM_SENSOR_HEIGHT : ℚ)

/-- `GBCAM_MIN_CROP_WIDTH_NORM` from `constants.ts`. -/
def GBCAM_MIN_CROP_WIDTH_NORM : ℚ := 1 / 5

/-- `clamp` from `utils/crop.ts`: `Math.max(min, Math.min(max, value))`. -/
def cropClamp (value lo hi : ℚ) : ℚ :=
  max lo (min hi value)

/-- `getDefaultCenteredCrop` from `utils/crop.ts` (the finite-positive
guard is a hypothesis-free identity over `ℚ` for positive inputs, kept as
an explicit test). -/
def getDefaultCenteredCrop (sourceW sourceH : ℚ)
    (aspect : ℚ := GBCAM_CROP_ASPECT) : CropRegion :=
  if ¬(0 < sourceW ∧ 0 < sourceH ∧ 0 < aspect) then
    ⟨0, 0, 1, 1⟩
  else
    let sourceAspect := sourceW / sourceH
    let (widthPx, heightPx) :=
      if aspect < sourceAspect then (sourceH * aspect, sourceH)
      else (sourceW, sourceW / aspect)
    let xPx := (sourceW - widthPx) * (1 / 2)
    let yPx := (sourceH - heightPx) * (1 / 2)
    ⟨xPx / sourceW, yPx / sourceH, widthPx / sourceW, heightPx / sourceH⟩

/-- `toSourcePixels` from `utils/crop.ts`. -/
def toSourcePixels (regionNorm : CropRegion) (sourceW sourceH : ℚ) : CropRegion :=
  ⟨regionNorm.x * sourceW, regionNorm.y * sourceH,
   regionNorm.width * sourceW, regionNorm.height * sourceH⟩

/-- `fromSourcePixels` from `utils/crop.ts` (positive source dimensions
assumed via the same guard as the source). -/
def fromSourcePixels (regionPx : CropRegion) (sourceW sourceH : ℚ) : CropRegion :=
  if ¬(0 < sourceW ∧ 0 < sourceH) then
    ⟨0, 0, 1, 1⟩
  else
    ⟨regionPx.x / sourceW, regionPx.y / sourceH,
     regionPx.width / sourceW, regionPx.height / sourceH⟩

/-- `clampAndNormalizeCrop` from `utils/crop.ts`: lock the width to the
target aspect, clamp it between the minimum crop width and the largest
width that fits, then clamp the origin so the region stays inside the
source. -/
def clampAndNormalizeCrop (region : CropRegion) (sourceW sourceH : ℚ)
    (minWidthNorm : ℚ := GBCAM_MIN_CROP_WIDTH_NORM)
    (aspect : ℚ := GBCAM_CROP_ASPECT) : CropRegion :=
  if ¬(0 < sourceW ∧ 0 < sourceH ∧ 0 < aspect) then
    ⟨0, 0, 1, 1⟩
  else
    let input := region
    let minWidthPx := max (sourceW * minWidthNorm) 1
    let maxWidthPx := min sourceW (sourceH * aspect)
    let inputPx := toSourcePixels input sourceW sourceH
    let widthFromInput := max inputPx.width (inputPx.height * aspect)
    let clampedWidthPx := cropClamp widthFromInput (min minWidthPx maxWidthPx) maxWidthPx
    let clampedHeightPx := clampedWidthPx / aspect
    let maxXPx := max 0 (sourceW - clampedWidthPx)
    let maxYPx := max 0 (sourceH - clampedHeightPx)
    let clampedXPx := cropClamp inputPx.x 0 maxXPx
    let clampedYPx := cropClamp inputPx.y 0 maxYPx
    fromSourcePixels ⟨clampedXPx, clampedYPx, clampedWidthPx, clampedHeightPx⟩ sourceW sourceH

/-! ## Frame extraction (`WebCodecsEncoder.ts`, `VideoProcessor`)

`extractFrames` / `extractFramesStreaming` validate the trim range, compute
`totalFrames = Math.floor(trimDuration * fps)`, seek to `startTime`, then
play the video and, on every presented-frame callback (`extractWithRVFC` /
`streamWithRVFC`, and identically in the `requestAnimationFrame`
fallbacks), run

```
if (frames.length >= totalFrames || video.currentTime >= endTime) done();
while (video.currentTime >= nextCaptureTime && frames.length < totalFrames)
  capture; nextCaptureTime = startTime + frames.length * frameInterval;
```

The loop is deterministic in the sequence of `video.currentTime` values
observed at the callbacks, so it is embedded as a function of that tick
sequence.  The global safety timeout resolves with the frames captured so
far, which the model reflects by simply ending the tick list. -/

/-- The inner `while` of the capture callback, with explicit fuel.  Each
iteration appends one timestamp and the guard `frames.length < total`
bounds the iteration count by `total - frames.length`, so fuel
`total - frames.length` makes the fuelled loop exit exactly when the
source loop does. -/
def captureBurstFuel (t startTime frameInterval : ℚ) (total : ℕ) :
    ℕ → List ℚ → ℚ → List ℚ × ℚ
  | 0, frames, nextCaptureTime => (frames, nextCaptureTime)
  | fuel + 1, frames, nextCaptureTime =>
    if nextCaptureTime ≤ t ∧ frames.length < total then
      captureBurstFuel t startTime frameInterval total fuel (frames ++ [t])
        (startTime + ((frames.length + 1 : ℕ) : ℚ) * frameInterval)
    else
      (frames, nextCaptureTime)

/-- The capture `while` loop of one presented-frame callback: capture while
`currentTime ≥ nextCaptureTime` and fewer than `total` frames exist,
advancing `nextCaptureTime = startTime + frames.length * frameInterval`
after each capture. -/
def captureBurst (t startTime frameInterval : ℚ) (total : ℕ)
    (frames : List ℚ) (nextCaptureTime : ℚ) : List ℚ × ℚ :=
  captureBurstFuel t startTime frameInterval total (total - frames.length)
    frames nextCaptureTime

/-- The callback sequence: each tick first checks the stop condition
(`frames.length ≥ total` or `currentTime ≥ endTime`, which resolves the
promise with the frames so far), then runs the capture burst. -/
def extractTicksGo (startTime frameInterval endTime : ℚ) (total : ℕ) :
    List ℚ → List ℚ → ℚ → List ℚ
  | [], frames, _ => frames
  | t :: ts, frames, nextCaptureTime =>
    if total ≤ frames.length ∨ endTime ≤ t then
      frames
    else
      let step := captureBurst t startTime frameInterval total frames nextCaptureTime
      extractTicksGo startTime frameInterval endTime total ts step.1 step.2

/-- `Math.floor(trimDuration * fps)` of `extractFrames`, as a natural
count (the source bails out when it is not positive). -/
def totalFramesFor (startTime endTime fps : ℚ) : ℤ :=
  Int.floor ((endTime - startTime) * fps)

/-- The frame-extraction loop of `extractFrames` /
`extractFramesStreaming`, as the list of captured source timestamps, given
the source times observed at the presented-frame callbacks.  Returns `[]`
when `totalFrames ≤ 0`, mirroring the early return of the source. -/
def extractFramesSim (ticks : List ℚ) (startTime endTime fps : ℚ) : List ℚ :=
  let totalFrames := totalFramesFor startTime endTime fps
  if totalFrames ≤ 0 then
    []
  else
    extractTicksGo startTime (1 / fps) endTime totalFrames.toNat ticks [] startTime

/-! ## Offline audio chain (`Mp4Encoder.ts`)

The offline replica operates on decoded PCM as exact rationals.  `Math.PI`
and the values `cos(w0)`, `sin(w0)` of the biquad design are transcendental
constants of the runtime; they enter every definition as explicit rational
parameters (`piv`, `cosW0`, `sinW0`), standing for whatever values the
runtime computes — both the offline and the live chain read the very same
constants, so every theorem below is quantified over them. -/

/-- `clampAudioSample` from `Mp4Encoder.ts`:
`Math.max(-1, Math.min(1, sample))`. -/
def clampAudioSample (sample : ℚ) : ℚ :=
  max (-1) (min 1 sample)

/-- `applySoftClip` from `Mp4Encoder.ts`:
`((3 + k) * sample * 20 * (PI / 180)) / (PI + k * |sample|)` with
`k = (distortionPercent / 100) * 50`, and the identity when
`distortionPercent ≤ 0`. -/
def applySoftClip (piv : ℚ) (sample distortionPercent : ℚ) : ℚ :=
  if distortionPercent ≤ 0 then
    sample
  else
    let amount := distortionPercent / 100
    let k := amount * 50
    ((3 + k) * sample * 20 * (piv / 180)) / (piv + k * |sample|)

/-- The `BiquadCoefficients` record of `Mp4Encoder.ts` (already divided
by `a0`). -/
structure BiquadCoefficients where
  b0 : ℚ
  b1 : ℚ
  b2 : ℚ
  a1 : ℚ
  a2 : ℚ
deriving DecidableEq

/-- `createBiquadCoefficients` from `Mp4Encoder.ts`: RBJ highpass/lowpass
coefficients.  The source computes `w0 = 2π·safeFrequency/sampleRate` and
takes `cos(w0)`/`sin(w0)`; those two transcendental values are the
parameters `cosW0`/`sinW0` here (for the settings range documented in
`AudioSettings` — highpass 100–1000 Hz, lowpass 2000–6000 Hz at 44.1 kHz —
the `safeFrequency` clamp to `[10, nyquist−10]` is the identity). -/
def createBiquadCoefficients (highpass : Bool) (cosW0 sinW0 q : ℚ) :
    BiquadCoefficients :=
  let alpha := sinW0 / (2 * q)
  let a0 := 1 + alpha
  let a1 := -2 * cosW0
  let a2 := 1 - alpha
  let b0 := if highpass then (1 + cosW0) / 2 else (1 - cosW0) / 2
  let b1 := if highpass then -(1 + cosW0) else 1 - cosW0
  let b2 := if highpass then (1 + cosW0) / 2 else (1 - cosW0) / 2
  ⟨b0 / a0, b1 / a0, b2 / a0, a1 / a0, a2 / a0⟩

/-- The direct-form difference equation of `applyBiquadInPlace` from
`Mp4Encoder.ts`, with state `(x1, x2, y1, y2)` initially zero. -/
def applyBiquadGo (c : BiquadCoefficients) :
    List ℚ → ℚ → ℚ → ℚ → ℚ → List ℚ
  | [], _, _, _, _ => []
  | x0 :: rest, x1, x2, y1, y2 =>
    let y0 := c.b0 * x0 + c.b1 * x1 + c.b2 * x2 - c.a1 * y1 - c.a2 * y2
    y0 :: applyBiquadGo c rest x0 x1 y0 y1

/-- `applyBiquadInPlace` from `Mp4Encoder.ts` on one channel. -/
def applyBiquadInPlace (samples : List ℚ) (c : BiquadCoefficients) : List ℚ :=
  applyBiquadGo c samples 0 0 0 0

/-- `applyPreviewEqFilters` from `Mp4Encoder.ts` on one channel: highpass
biquad then lowpass biquad, both with `FILTER_Q`. -/
def applyPreviewEqFilters (hp lp : BiquadCoefficients) (channel : List ℚ) : List ℚ :=
  applyBiquadInPlace (applyBiquadInPlace channel hp) lp

/-- `Math.round` (also used by the bit-crusher quantiser). -/
def jsRoundAudio (x : ℚ) : ℤ :=
  Int.floor (x + 1 / 2)

/-- The per-sample loop of `applyPreviewBitcrushAndDistortion`: every
`sampleRateReduction`-th sample the quantised, clamped input becomes the
held sample; each output is the soft-clipped, clamped held sample. -/
def bitcrushDistortGo (piv quantStep distortion : ℚ) (reduction : ℕ) :
    List ℚ → ℕ → ℚ → List ℚ
  | [], _, _ => []
  | x :: rest, i, heldSample =>
    let held' :=
      if i % reduction = 0 then
        clampAudioSample (((jsRoundAudio (x / quantStep)) : ℚ) * quantStep)
      else
        heldSample
    clampAudioSample (applySoftClip piv held' distortion)
      :: bitcrushDistortGo piv quantStep distortion reduction rest (i + 1) held'

/-- `applyPreviewBitcrushAndDistortion` from `Mp4Encoder.ts` on one
channel.  `bitDepth` and `sampleRateReduction` are integer settings
(`Math.round` on them is the identity); the source clamps `bitDepth` to
`[2, 16]`, `sampleRateReduction` to `≥ 1` and `distortion` to `[0, 100]`,
then quantises to `2^bitDepth` levels with `quantStep = 2 / levels`. -/
def applyPreviewBitcrushAndDistortion (piv : ℚ) (bitDepth sampleRateReduction : ℤ)
    (distortionRaw : ℚ) (data : List ℚ) : List ℚ :=
  let bd := (max 2 (min 16 bitDepth)).toNat
  let reduction := (max 1 sampleRateReduction).toNat
  let distortion := max 0 (min 100 distortionRaw)
  let levels : ℚ := (2 : ℚ) ^ bd
  let quantStep := 2 / levels
  bitcrushDistortGo piv quantStep distortion reduction data 0 0

/-- The complete offline audio chain of `applyAudioBitcrush` on one
channel: preview EQ biquads, then bitcrush and distortion. -/
def offlineAudioChain (piv : ℚ) (hp lp : BiquadCoefficients)
    (bitDepth sampleRateReduction : ℤ) (distortionRaw : ℚ)
    (channel : List ℚ) : List ℚ :=
  applyPreviewBitcrushAndDistortion piv bitDepth sampleRateReduction distortionRaw
    (applyPreviewEqFilters hp lp channel)

/-! ## Live audio chain (`GameBoyAudioProcessor.ts`,
`audio/bitcrusher-processor.js`)

The live preview graph is `highpass BiquadFilterNode → lowpass
BiquadFilterNode → bitcrusher AudioWorkletNode → WaveShaperNode → GainNode
(gain 1.0)`.  The worklet is repository code and is embedded from its
source; the `BiquadFilterNode` and `WaveShaperNode` sample processing is
browser-native. -/

/-- The sample-and-hold state machine of `bitcrusher-processor.js`: on
every sample position, when `sampleCounter % reduction == 0` the input is
quantised (`Math.round(sample / step) * step`), clamped to `[-1, 1]` and
stored as the held sample; the held sample is emitted. -/
def bitcrusherGo (step : ℚ) (reduction : ℕ) :
    List ℚ → ℕ → ℚ → List ℚ
  | [], _, _ => []
  | x :: rest, sampleCounter, lastSample =>
    let last' :=
      if sampleCounter % reduction = 0 then
        clampAudioSample (((jsRoundAudio (x / step)) : ℚ) * step)
      else
        lastSample
    last' :: bitcrusherGo step reduction rest (sampleCounter + 1) last'

/-- The `BitcrusherProcessor.process` loop from
`audio/bitcrusher-processor.js` on one channel of a contiguous stream
(the counter starts at 0 and advances once per sample position).  The
worklet parameters are clamped by their descriptors to `bitDepth ∈ [2,16]`
and `sampleRateReduction ∈ [1,16]` (then floored); `levels = 2^bitDepth`,
`step = 2 / levels`. -/
def bitcrusherProcess (bitDepth sampleRateReduction : ℤ)
    (input : List ℚ) : List ℚ :=
  let bd := (max 2 (min 16 bitDepth)).toNat
  let reduction := (max 1 (min 16 sampleRateReduction)).toNat
  let levels : ℚ := (2 : ℚ) ^ bd
  let step := 2 / levels
  bitcrusherGo step reduction input 0 0

/-- Modelled from the spec: the live `BiquadFilterNode`s realise "the same
biquad difference equation … standard RBJ-style coefficients parameterized
by cutoff frequency, sample rate, and a fixed Q" (§4.4) that the offline
replica implements from first principles.  The node's per-sample recurrence
is browser-native code, not in `src/`; it is modelled as the RBJ
direct-form recurrence on the same coefficients, written as a stateful
scan. -/
def previewBiquadNode (c : BiquadCoefficients) (input : List ℚ) : List ℚ :=
  (input.foldl
      (fun (st : (ℚ × ℚ) × (ℚ × ℚ) × List ℚ) x0 =>
        let x1 := st.1.1
        let x2 := st.1.2
        let y1 := st.2.1.1
        let y2 := st.2.1.2
        let y0 := c.b0 * x0 + c.b1 * x1 + c.b2 * x2 - c.a1 * y1 - c.a2 * y2
        ((x0, x1), (y0, y1), st.2.2 ++ [y0]))
      ((0, 0), (0, 0), [])).2.2

/-- Modelled from the spec: the live `WaveShaperNode` applies "the same
soft-clip curve `y = (3+k)·x·c / (π + k·|x|)`" (§4.4).  The curve samples
are built by `GameBoyAudioProcessor.updateDistortionCurve` with
`k = (distortion/100)·50` and scale `20·(π/180)`, and the node is bypassed
(`curve = null`) when the distortion amount is zero; the node's sampled
lookup is browser-native, modelled as the exact curve formula. -/
def previewWaveShaper (piv : ℚ) (distortionRaw : ℚ) (x : ℚ) : ℚ :=
  let amount := distortionRaw / 100
  if amount = 0 then
    x
  else
    let k := amount * 50
    ((3 + k) * x * 20 * (piv / 180)) / (piv + k * |x|)

/-- The live preview chain of `GameBoyAudioProcessor` on one channel:
highpass biquad → lowpass biquad → bitcrusher worklet → waveshaper →
gain 1.0. -/
def liveAudioChain (piv : ℚ) (hp lp : BiquadCoefficients)
    (bitDepth sampleRateReduction : ℤ) (distortionRaw : ℚ)
    (channel : List ℚ) : List ℚ :=
  let filtered := previewBiquadNode lp (previewBiquadNode hp channel)
  let crushed := bitcrusherProcess bitDepth sampleRateReduction filtered
  let shaped := crushed.map (previewWaveShaper piv distortionRaw)
  shaped.map (fun s => s * 1)

/-! ## MP4 export orchestration (`ExportManager.ts`)

The `'mp4'` case of `exportVideo` is a sequential orchestration whose
branching depends only on the outcomes of the asynchronous steps; it is
embedded as a function of those outcomes.  Blobs are abstract values
(`ℕ`), failures carry a message. -/

/-- The outcomes of the asynchronous steps of the MP4 export that the
control flow of `exportVideo` branches on. -/
structure Mp4ExportEnv where
  /-- `isWebCodecsSupported()` (already `false` on macOS). -/
  webCodecsSupported : Bool
  /-- `!!videoElement.src`. -/
  needsAudio : Bool
  /-- The streaming phase — `extractFramesStreaming` feeding
  `encoder.encodeFrame` and then `encoder.finalize()`: on success, the
  finalized WebCodecs blob; on failure, the thrown encode error. -/
  streamingResult : Except String ℕ
  /-- `muxMp4WithSourceAudio` on the WebCodecs blob. -/
  muxResult : Except String ℕ
  /-- The FFmpeg path: `extractFrames` + `encodeMp4`. -/
  ffmpegResult : Except String ℕ

/-- The observable outcome of the MP4 branch of `exportVideo`. -/
structure Mp4ExportResult where
  /-- The blob returned (or the error propagated) by `exportVideo`. -/
  blob : Except String ℕ
  /-- Whether the WebCodecs `VideoEncoder` ended closed (via `finalize()`
  on success or `encoder.close()` in the catch handler). -/
  encoderClosed : Bool
  /-- Whether the FFmpeg fallback produced the returned blob. -/
  usedFFmpegFallback : Bool

/-- The `'mp4'` case of `exportVideo` from `ExportManager.ts`: try the
WebCodecs streaming path when supported; on success optionally mux source
audio (audio-mux failure degrades to the video-only blob) and return; on
any streaming encode error close the encoder, leave
`webCodecsVideoBlob = null` and fall through to the FFmpeg path, whose
result is returned. -/
def exportMp4Flow (env : Mp4ExportEnv) : Mp4ExportResult :=
  if env.webCodecsSupported then
    match env.streamingResult with
    | .ok webCodecsVideoBlob =>
      let blob :=
        if env.needsAudio then
          match env.muxResult with
          | .ok muxed => muxed
          | .error _ => webCodecsVideoBlob
        else
          webCodecsVideoBlob
      ⟨.ok blob, true, false⟩
    | .error _ =>
      ⟨env.ffmpegResult, true, true⟩
  else
    ⟨env.ffmpegResult, false, true⟩

/-! ## Theorems -/

/-- Bumping an odd natural to its successor yields an even number, the
core of the `ensureEven` fix-up. -/
lemma ensureEven_mod (n : ℕ) : (if n % 2 ≠ 0 then n + 1 else n) % 2 = 0 := by
  split <;> omega

/-- **C6** — For every frame width, frame height, and scale factor, the
output dimensions computed for the even-dimension-required MP4 container —
`calculateScaledDimensions` with `ensureEven = true` (as used by the
`WebCodecsEncoder` constructor and `encodeMp4`) and the `mp4` branch of
`calculateOutputDimensions` — are both even, including when the scaled
dimension would be odd. -/
theorem mp4_output_dimensions_even :
    (∀ frameWidth frameHeight scale : ℕ,
      (calculateScaledDimensions frameWidth frameHeight scale true).width % 2 = 0 ∧
      (calculateScaledDimensions frameWidth frameHeight scale true).height % 2 = 0) ∧
    (∀ frameWidth frameHeight : ℕ,
      (webCodecsOutputDimensions frameWidth frameHeight).width % 2 = 0 ∧
      (webCodecsOutputDimensions frameWidth frameHeight).height % 2 = 0) ∧
    (∀ (sourceWidth sourceHeight : ℕ) (ditherMode : Option DitherMode),
      (calculateOutputDimensions sourceWidth sourceHeight .mp4 ditherMode).width % 2 = 0 ∧
      (calculateOutputDimensions sourceWidth sourceHeight .mp4 ditherMode).height % 2 = 0) := by
  refine ⟨fun fw fh s => ?_, fun fw fh => ?_, fun sw sh dm => ?_⟩
  · exact ⟨ensureEven_mod _, ensureEven_mod _⟩
  · exact ⟨ensureEven_mod _, ensureEven_mod _⟩
  · unfold calculateOutputDimensions
    simp only [reduceCtorEq, if_false, if_true]
    exact ⟨ensureEven_mod _, ensureEven_mod _⟩

/-- **C9** — If the WebCodecs streaming encode path fails with any encode
error during an MP4 export, the export does not return a partial or empty
file: the encoder is closed, the job falls back to the FFmpeg path, and the
returned blob is the fallback path's complete output. -/
theorem webcodecs_error_falls_back_to_ffmpeg
    (env : Mp4ExportEnv) (err : String)
    (hsup : env.webCodecsSupported = true)
    (herr : env.streamingResult = .error err) :
    (exportMp4Flow env).encoderClosed = true ∧
    (exportMp4Flow env).usedFFmpegFallback = true ∧
    (exportMp4Flow env).blob = env.ffmpegResult := by
  simp [exportMp4Flow, hsup, herr]

/-- Witness for **C9**: a concrete failing streaming encode. -/
theorem webcodecs_error_falls_back_to_ffmpeg_witness :
    (exportMp4Flow ⟨true, true, .error "encode failed", .ok 7, .ok 3⟩).encoderClosed = true ∧
    (exportMp4Flow ⟨true, true, .error "encode failed", .ok 7, .ok 3⟩).usedFFmpegFallback = true ∧
    (exportMp4Flow ⟨true, true, .error "encode failed", .ok 7, .ok 3⟩).blob = .ok 3 :=
  webcodecs_error_falls_back_to_ffmpeg ⟨true, true, .error "encode failed", .ok 7, .ok 3⟩
    "encode failed" rfl rfl

/-- **C5** — Palette inversion is a round-trip identity: reversing a
palette twice yields the original palette; the never-inverted dither run
coincides with the run whose palette went through inversion and back (the
invert flag only selects the palette order, so `invertPalette = false`
after a `true` run reads the same palette as a run that never inverted);
and `getPaletteAsFloat name false` equals the float form of the palette
obtained by double reversal, while `getPaletteAsFloat name true` is
exactly the float form of the reversed palette. -/
theorem palette_inversion_round_trip :
    ∀ name : PaletteName,
      paletteReverse (paletteReverse (PALETTES name)) = PALETTES name ∧
      (∀ (pixels : List ℤ) (width height : ℕ),
        floydSteinbergDither pixels width height (selectPalette name false) =
          floydSteinbergDither pixels width height
            (paletteReverse (paletteReverse (PALETTES name)))) ∧
      getPaletteAsFloat name false =
        paletteToFloat (paletteReverse (paletteReverse (PALETTES name))) ∧
      getPaletteAsFloat name true = paletteToFloat (paletteReverse (PALETTES name)) := by
  intro name
  have hrev : paletteReverse (paletteReverse (PALETTES name)) = PALETTES name :=
    List.reverse_reverse _
  refine ⟨hrev, ?_, ?_, ?_⟩
  · intro pixels width height
    rw [hrev]
    rfl
  · rw [hrev]
    cases name <;> rfl
  · cases name <;> rfl

/-! ### Nearest-palette search (C3) -/

lemma sqDist_expand (r g b : ℚ) (c : PaletteColor) :
    sqDist r g b c = (r - (c.1 : ℚ)) * (r - (c.1 : ℚ)) +
      (g - (c.2.1 : ℚ)) * (g - (c.2.1 : ℚ)) +
      (b - (c.2.2 : ℚ)) * (b - (c.2.2 : ℚ)) := rfl

lemma sqDist_nonneg (r g b : ℚ) (c : PaletteColor) : 0 ≤ sqDist r g b c := by
  rw [sqDist_expand]
  exact add_nonneg (add_nonneg (mul_self_nonneg _) (mul_self_nonneg _)) (mul_self_nonneg _)

lemma sqDist_eq_zero_iff (r g b : ℚ) (c : PaletteColor) :
    sqDist r g b c = 0 ↔ r = (c.1 : ℚ) ∧ g = (c.2.1 : ℚ) ∧ b = (c.2.2 : ℚ) := by
  rw [sqDist_expand]
  constructor
  · intro h
    have h12 : (r - (c.1 : ℚ)) * (r - (c.1 : ℚ)) + (g - (c.2.1 : ℚ)) * (g - (c.2.1 : ℚ)) = 0 ∧
        (b - (c.2.2 : ℚ)) * (b - (c.2.2 : ℚ)) = 0 :=
      (add_eq_zero_iff_of_nonneg
        (add_nonneg (mul_self_nonneg _) (mul_self_nonneg _)) (mul_self_nonneg _)).mp h
    have h1 : (r - (c.1 : ℚ)) * (r - (c.1 : ℚ)) = 0 ∧
        (g - (c.2.1 : ℚ)) * (g - (c.2.1 : ℚ)) = 0 :=
      (add_eq_zero_iff_of_nonneg (mul_self_nonneg _) (mul_self_nonneg _)).mp h12.1
    exact ⟨sub_eq_zero.mp (mul_self_eq_zero.mp h1.1),
           sub_eq_zero.mp (mul_self_eq_zero.mp h1.2),
           sub_eq_zero.mp (mul_self_eq_zero.mp h12.2)⟩
  · rintro ⟨h1, h2, h3⟩
    rw [h1, h2, h3]
    ring

/-- Loop invariant of `findClosestGo`: walking the remaining suffix with a
current first-argmin of the prefix yields the first argmin of the whole
palette. -/
lemma findClosestGo_first_argmin (r g b : ℚ) (pal : List PaletteColor) :
    ∀ (rest : List PaletteColor) (i best : ℕ) (m : ℚ),
      rest = pal.drop i → i ≤ pal.length → best < i →
      distAt r g b pal best = m →
      (∀ k, k < i → m ≤ distAt r g b pal k) →
      (∀ k, k < best → m < distAt r g b pal k) →
      findClosestGo r g b rest i best (some m) < pal.length ∧
      (∀ k, k < pal.length →
        distAt r g b pal (findClosestGo r g b rest i best (some m)) ≤ distAt r g b pal k) ∧
      (∀ k, k < findClosestGo r g b rest i best (some m) →
        distAt r g b pal (findClosestGo r g b rest i best (some m)) < distAt r g b pal k) := by
  intro rest
  induction rest with
  | nil =>
    intro i best m hdrop hile hbest hm hmin hstrict
    have hlen : pal.length ≤ i := by
      by_contra hlt
      push_neg at hlt
      have : pal.drop i ≠ [] := by
        simp [List.drop_eq_nil_iff]
        omega
      exact this hdrop.symm
    have hieq : i = pal.length := le_antisymm hile hlen
    refine ⟨by simpa [findClosestGo, hieq] using hbest, ?_, ?_⟩
    · intro k hk
      rw [show findClosestGo r g b [] i best (some m) = best from rfl, hm]
      exact hmin k (by omega)
    · intro k hk
      rw [show findClosestGo r g b [] i best (some m) = best from rfl] at hk ⊢
      rw [hm]
      exact hstrict k hk
  | cons color rest2 ih =>
    intro i best m hdrop hile hbest hm hmin hstrict
    have hi : i < pal.length := by
      by_contra hge
      push_neg at hge
      have : pal.drop i = [] := List.drop_eq_nil_iff.mpr hge
      rw [this] at hdrop
      exact List.cons_ne_nil _ _ hdrop
    have hcolor : pal.getD i (0, 0, 0) = color := by
      have h0 : (pal.drop i).getD 0 (0, 0, 0) = color := by rw [← hdrop]; rfl
      rwa [List.getD_eq_getElem?_getD, List.getElem?_drop, Nat.add_zero,
        ← List.getD_eq_getElem?_getD] at h0
    have hrest2 : rest2 = pal.drop (i + 1) := by
      rw [← List.tail_drop, ← hdrop]
      rfl
    have hdisti : distAt r g b pal i = sqDist r g b color := by
      rw [distAt, hcolor]
    by_cases hlt : sqDist r g b color < m
    · have hstep : findClosestGo r g b (color :: rest2) i best (some m) =
          findClosestGo r g b rest2 (i + 1) i (some (sqDist r g b color)) := by
        simp [findClosestGo, ltMinDistance, hlt]
      rw [hstep]
      exact ih (i + 1) i (sqDist r g b color) hrest2 (by omega) (by omega) hdisti
        (fun k hk => by
          rcases Nat.lt_succ_iff_lt_or_eq.mp hk with hk' | hk'
          · exact le_of_lt (lt_of_lt_of_le hlt (hmin k hk'))
          · rw [hk', hdisti]
        )
        (fun k hk => lt_of_lt_of_le hlt (hmin k hk))
    · have hstep : findClosestGo r g b (color :: rest2) i best (some m) =
          findClosestGo r g b rest2 (i + 1) best (some m) := by
        simp [findClosestGo, ltMinDistance, hlt]
      rw [hstep]
      exact ih (i + 1) best m hrest2 (by omega) (by omega) hm
        (fun k hk => by
          rcases Nat.lt_succ_iff_lt_or_eq.mp hk with hk' | hk'
          · exact hmin k hk'
          · rw [hk', hdisti]
            exact le_of_not_lt hlt
        )
        hstrict

/-- The three first-argmin properties of `findClosestColorIndex` for a
nonempty palette. -/
lemma findClosestColorIndex_first_argmin (r g b : ℚ)
    (palette : List PaletteColor) (hne : palette ≠ []) :
    findClosestColorIndex r g b palette < palette.length ∧
    (∀ k, k < palette.length →
      distAt r g b palette (findClosestColorIndex r g b palette) ≤ distAt r g b palette k) ∧
    (∀ k, k < findClosestColorIndex r g b palette →
      distAt r g b palette (findClosestColorIndex r g b palette) < distAt r g b palette k) := by
  match palette, hne with
  | color :: rest, _ =>
    have hstep : findClosestColorIndex r g b (color :: rest) =
        findClosestGo r g b rest 1 0 (some (sqDist r g b color)) := by
      simp [findClosestColorIndex, findClosestGo, ltMinDistance]
    rw [hstep]
    exact findClosestGo_first_argmin r g b (color :: rest) rest 1 0
      (sqDist r g b color) rfl (by simp) (by omega) rfl
      (fun k hk => by
        have hk0 : k = 0 := by omega
        subst hk0
        exact le_rfl)
      (fun k hk => by omega)

/-- **C3** — Nearest-palette search returns, for every candidate RGB
colour and every (nonempty) palette, the index of the palette entry
minimising squared Euclidean RGB distance, with ties broken by the lowest
index (every strictly smaller index has strictly greater distance);
consequently quantisation is idempotent: for every colour that is already
a palette entry, the search returns that same colour. -/
theorem nearest_palette_search_first_argmin_and_idempotent
    (r g b : ℚ) (palette : List PaletteColor) (hne : palette ≠ []) :
    (findClosestColorIndex r g b palette < palette.length ∧
      (∀ k, k < palette.length →
        distAt r g b palette (findClosestColorIndex r g b palette) ≤
          distAt r g b palette k) ∧
      (∀ k, k < findClosestColorIndex r g b palette →
        distAt r g b palette (findClosestColorIndex r g b palette) <
          distAt r g b palette k)) ∧
    (∀ c : PaletteColor, c ∈ palette →
      palette.getD
        (findClosestColorIndex (c.1 : ℚ) (c.2.1 : ℚ) (c.2.2 : ℚ) palette)
        (0, 0, 0) = c) := by
  refine ⟨findClosestColorIndex_first_argmin r g b palette hne, ?_⟩
  intro c hc
  obtain ⟨k0, hk0, hget⟩ := List.mem_iff_getElem.mp hc
  obtain ⟨hlt, hmin, -⟩ :=
    findClosestColorIndex_first_argmin (c.1 : ℚ) (c.2.1 : ℚ) (c.2.2 : ℚ) palette hne
  set j := findClosestColorIndex (c.1 : ℚ) (c.2.1 : ℚ) (c.2.2 : ℚ) palette with hj
  have hd0 : distAt (c.1 : ℚ) (c.2.1 : ℚ) (c.2.2 : ℚ) palette k0 = 0 := by
    rw [distAt, List.getD_eq_getElem palette (0, 0, 0) hk0, hget]
    exact (sqDist_eq_zero_iff _ _ _ _).mpr ⟨rfl, rfl, rfl⟩
  have hdj : distAt (c.1 : ℚ) (c.2.1 : ℚ) (c.2.2 : ℚ) palette j = 0 :=
    le_antisymm (hd0 ▸ hmin k0 hk0) (sqDist_nonneg _ _ _ _)
  obtain ⟨h1, h2, h3⟩ := (sqDist_eq_zero_iff _ _ _ _).mp hdj
  have hfst : (palette.getD j (0, 0, 0)).1 = c.1 := by exact_mod_cast h1.symm
  have hsnd : (palette.getD j (0, 0, 0)).2.1 = c.2.1 := by exact_mod_cast h2.symm
  have htrd : (palette.getD j (0, 0, 0)).2.2 = c.2.2 := by exact_mod_cast h3.symm
  exact Prod.ext hfst (Prod.ext hsnd htrd)

/-- Witness for **C3**: the PocketGrey palette is nonempty, and the
properties hold for the concrete candidate `(100, 100, 100)`. -/
theorem nearest_palette_search_witness :
    PALETTES .pocketGrey ≠ [] ∧
    ((findClosestColorIndex 100 100 100 (PALETTES .pocketGrey) <
        (PALETTES .pocketGrey).length ∧
      (∀ k, k < (PALETTES .pocketGrey).length →
        distAt 100 100 100 (PALETTES .pocketGrey)
            (findClosestColorIndex 100 100 100 (PALETTES .pocketGrey)) ≤
          distAt 100 100 100 (PALETTES .pocketGrey) k) ∧
      (∀ k, k < findClosestColorIndex 100 100 100 (PALETTES .pocketGrey) →
        distAt 100 100 100 (PALETTES .pocketGrey)
            (findClosestColorIndex 100 100 100 (PALETTES .pocketGrey)) <
          distAt 100 100 100 (PALETTES .pocketGrey) k)) ∧
    (∀ c : PaletteColor, c ∈ PALETTES .pocketGrey →
      (PALETTES .pocketGrey).getD
        (findClosestColorIndex (c.1 : ℚ) (c.2.1 : ℚ) (c.2.2 : ℚ)
          (PALETTES .pocketGrey))
        (0, 0, 0) = c)) :=
  ⟨by decide,
   nearest_palette_search_first_argmin_and_idempotent 100 100 100
     (PALETTES .pocketGrey) (by decide)⟩

/-! ### Error-diffusion conservation (C4) -/

lemma chanSum_set (c : ℕ) (l : List ℚ) (i0 : ℕ) (v : ℚ) (hi0 : i0 < l.length) :
    chanSum c (l.set i0 v) =
      chanSum c l + (if i0 % 3 = c then v - l.getD i0 0 else 0) := by
  unfold chanSum
  rw [List.length_set,
    Finset.sum_eq_sum_diff_singleton_add (Finset.mem_range.mpr hi0)
      (fun i => if i % 3 = c then (l.set i0 v).getD i 0 else 0),
    Finset.sum_eq_sum_diff_singleton_add (Finset.mem_range.mpr hi0)
      (fun i => if i % 3 = c then l.getD i 0 else 0)]
  have hrest : ∀ xx ∈ Finset.range l.length \ {i0},
      (if xx % 3 = c then (l.set i0 v).getD xx 0 else 0) =
        (if xx % 3 = c then l.getD xx 0 else 0) := by
    intro xx hxx
    have hne : i0 ≠ xx := by
      rcases Finset.mem_sdiff.mp hxx with ⟨-, hx2⟩
      simp only [Finset.mem_singleton] at hx2
      omega
    rw [List.getD_eq_getElem?_getD, List.getElem?_set_ne hne,
      ← List.getD_eq_getElem?_getD]
  rw [Finset.sum_congr rfl hrest]
  have hset : (l.set i0 v).getD i0 0 = v := by
    rw [List.getD_eq_getElem?_getD, List.getElem?_set_self hi0]
    rfl
  rw [hset]
  by_cases hc : i0 % 3 = c
  · simp only [hc, if_pos]
    ring
  · simp only [hc, if_false]
    ring

/-- `addError` at an in-bounds target with a buffer of the dither's shape
reduces to the three channel writes (both source guards pass). -/
lemma addError_inBounds (buffer : List ℚ) (w h : ℕ) (x y : ℤ)
    (er eg eb f : ℚ) (hx : 0 ≤ x) (hxw : x < (w : ℤ)) (hy : 0 ≤ y)
    (hyh : y < (h : ℤ)) (hlen : buffer.length = 3 * (w * h)) :
    addError buffer w h x y er eg eb f =
      (let p := (y.toNat * w + x.toNat) * 3
       let b1 := buffer.set p (buffer.getD p 0 + er * f)
       let b2 := b1.set (p + 1) (b1.getD (p + 1) 0 + eg * f)
       b2.set (p + 2) (b2.getD (p + 2) 0 + eb * f)) := by
  have hq : y.toNat * w + x.toNat < w * h := by
    have hx' : x.toNat < w := by omega
    have hy' : y.toNat < h := by omega
    calc y.toNat * w + x.toNat < y.toNat * w + w := by omega
      _ = (y.toNat + 1) * w := by ring
      _ ≤ h * w := Nat.mul_le_mul_right w hy'
      _ = w * h := Nat.mul_comm h w
  have hidx : (y * (w : ℤ) + x) * 3 = (((y.toNat * w + x.toNat) * 3 : ℕ) : ℤ) := by
    push_cast [Int.toNat_of_nonneg hx, Int.toNat_of_nonneg hy]
    ring
  unfold addError
  dsimp only
  split_ifs with hc1 hc2
  · exfalso
    omega
  · exfalso
    rw [hidx, hlen] at hc2
    omega
  · rw [hidx, Int.toNat_natCast]

/-- Adding a diffused error at an in-bounds target adds exactly
`error * factor` to each channel total of the working buffer. -/
lemma addError_chanSum (buffer : List ℚ) (w h : ℕ) (x y : ℤ)
    (er eg eb f : ℚ) (hx : 0 ≤ x) (hxw : x < (w : ℤ)) (hy : 0 ≤ y)
    (hyh : y < (h : ℤ)) (hlen : buffer.length = 3 * (w * h)) :
    chanSum 0 (addError buffer w h x y er eg eb f) = chanSum 0 buffer + er * f ∧
    chanSum 1 (addError buffer w h x y er eg eb f) = chanSum 1 buffer + eg * f ∧
    chanSum 2 (addError buffer w h x y er eg eb f) = chanSum 2 buffer + eb * f := by
  rw [addError_inBounds buffer w h x y er eg eb f hx hxw hy hyh hlen]
  dsimp only
  have hq : y.toNat * w + x.toNat < w * h := by
    have hx' : x.toNat < w := by omega
    have hy' : y.toNat < h := by omega
    calc y.toNat * w + x.toNat < y.toNat * w + w := by omega
      _ = (y.toNat + 1) * w := by ring
      _ ≤ h * w := Nat.mul_le_mul_right w hy'
      _ = w * h := Nat.mul_comm h w
  set q := y.toNat * w + x.toNat with hqdef
  set v0 := buffer.getD (q * 3) 0 + er * f with hv0
  set b1 := buffer.set (q * 3) v0 with hb1
  set v1 := b1.getD (q * 3 + 1) 0 + eg * f with hv1
  set b2 := b1.set (q * 3 + 1) v1 with hb2
  set v2 := b2.getD (q * 3 + 2) 0 + eb * f with hv2
  have hlb1 : b1.length = buffer.length := by
    rw [hb1]
    exact List.length_set _ _ _
  have hlb2 : b2.length = buffer.length := by
    rw [hb2, List.length_set, hlb1]
  have hq0 : q * 3 < buffer.length := by
    rw [hlen]
    omega
  refine ⟨?_, ?_, ?_⟩
  · rw [chanSum_set 0 b2 (q * 3 + 2) v2 (by rw [hlb2, hlen]; omega),
      chanSum_set 0 b1 (q * 3 + 1) v1 (by rw [hlb1, hlen]; omega),
      chanSum_set 0 buffer (q * 3) v0 hq0,
      if_pos (by omega : q * 3 % 3 = 0),
      if_neg (by omega : ¬(q * 3 + 1) % 3 = 0),
      if_neg (by omega : ¬(q * 3 + 2) % 3 = 0), hv0]
    ring
  · rw [chanSum_set 1 b2 (q * 3 + 2) v2 (by rw [hlb2, hlen]; omega),
      chanSum_set 1 b1 (q * 3 + 1) v1 (by rw [hlb1, hlen]; omega),
      chanSum_set 1 buffer (q * 3) v0 hq0,
      if_neg (by omega : ¬q * 3 % 3 = 1),
      if_pos (by omega : (q * 3 + 1) % 3 = 1),
      if_neg (by omega : ¬(q * 3 + 2) % 3 = 1), hv1]
    ring
  · rw [chanSum_set 2 b2 (q * 3 + 2) v2 (by rw [hlb2, hlen]; omega),
      chanSum_set 2 b1 (q * 3 + 1) v1 (by rw [hlb1, hlen]; omega),
      chanSum_set 2 buffer (q * 3) v0 hq0,
      if_neg (by omega : ¬q * 3 % 3 = 2),
      if_neg (by omega : ¬(q * 3 + 1) % 3 = 2),
      if_pos (by omega : (q * 3 + 2) % 3 = 2), hv2]
    ring

/-- **C4** — The four Floyd–Steinberg diffusion coefficients sum to
`16/16`, and for every pixel whose four diffusion targets (right,
bottom-left, bottom, bottom-right) all lie inside the image, the total
error the four `addError` calls of `floydSteinbergDither` add to the
working buffer equals exactly the pixel's quantisation error in each RGB
channel. -/
theorem fs_diffusion_conserves_error (working : List ℚ) (width height x y : ℕ)
    (er eg eb : ℚ) (hlen : working.length = 3 * (width * height))
    (hx1 : x + 1 < width) (hx0 : 1 ≤ x) (hy1 : y + 1 < height) :
    ((7 : ℚ) / 16 + 3 / 16 + 5 / 16 + 1 / 16 = 1) ∧
    (let w1 := addError working width height ((x : ℤ) + 1) (y : ℤ) er eg eb (7 / 16)
     let w2 := addError w1 width height ((x : ℤ) - 1) ((y : ℤ) + 1) er eg eb (3 / 16)
     let w3 := addError w2 width height (x : ℤ) ((y : ℤ) + 1) er eg eb (5 / 16)
     let w4 := addError w3 width height ((x : ℤ) + 1) ((y : ℤ) + 1) er eg eb (1 / 16)
     chanSum 0 w4 = chanSum 0 working + er ∧
     chanSum 1 w4 = chanSum 1 working + eg ∧
     chanSum 2 w4 = chanSum 2 working + eb) := by
  refine ⟨by norm_num, ?_⟩
  have hL1 : ∀ (b : List ℚ) (xx yy : ℤ) (e1 e2 e3 ff : ℚ),
      (addError b width height xx yy e1 e2 e3 ff).length = b.length := by
    intro b xx yy e1 e2 e3 ff
    unfold addError
    dsimp only
    split_ifs <;> simp [List.length_set]
  have h1 := addError_chanSum working width height ((x : ℤ) + 1) (y : ℤ) er eg eb (7 / 16)
    (by omega) (by omega) (by omega) (by omega) hlen
  have hlen1 : (addError working width height ((x : ℤ) + 1) (y : ℤ) er eg eb (7 / 16)).length =
      3 * (width * height) := by rw [hL1, hlen]
  have h2 := addError_chanSum _ width height ((x : ℤ) - 1) ((y : ℤ) + 1) er eg eb (3 / 16)
    (by omega) (by omega) (by omega) (by omega) hlen1
  have hlen2 : (addError (addError working width height ((x : ℤ) + 1) (y : ℤ) er eg eb (7 / 16))
      width height ((x : ℤ) - 1) ((y : ℤ) + 1) er eg eb (3 / 16)).length =
      3 * (width * height) := by rw [hL1, hlen1]
  have h3 := addError_chanSum _ width height (x : ℤ) ((y : ℤ) + 1) er eg eb (5 / 16)
    (by omega) (by omega) (by omega) (by omega) hlen2
  have hlen3 : (addError (addError (addError working width height ((x : ℤ) + 1) (y : ℤ) er eg eb
      (7 / 16)) width height ((x : ℤ) - 1) ((y : ℤ) + 1) er eg eb (3 / 16)) width height
      (x : ℤ) ((y : ℤ) + 1) er eg eb (5 / 16)).length = 3 * (width * height) := by
    rw [hL1, hlen2]
  have h4 := addError_chanSum _ width height ((x : ℤ) + 1) ((y : ℤ) + 1) er eg eb (1 / 16)
    (by omega) (by omega) (by omega) (by omega) hlen3
  refine ⟨?_, ?_, ?_⟩
  · rw [h4.1, h3.1, h2.1, h1.1]
    ring
  · rw [h4.2.1, h3.2.1, h2.2.1, h1.2.1]
    ring
  · rw [h4.2.2, h3.2.2, h2.2.2, h1.2.2]
    ring

/-- Witness for **C4**: a concrete 3×3 buffer and interior pixel. -/
theorem fs_diffusion_conserves_error_witness :
    (List.replicate 27 (0 : ℚ)).length = 3 * (3 * 3) ∧ 1 + 1 < 3 ∧ 1 ≤ 1 ∧ 1 + 1 < 3 ∧
    (((7 : ℚ) / 16 + 3 / 16 + 5 / 16 + 1 / 16 = 1) ∧
    (let w1 := addError (List.replicate 27 (0 : ℚ)) 3 3 ((1 : ℤ) + 1) (1 : ℤ) 10 20 30 (7 / 16)
     let w2 := addError w1 3 3 ((1 : ℤ) - 1) ((1 : ℤ) + 1) 10 20 30 (3 / 16)
     let w3 := addError w2 3 3 (1 : ℤ) ((1 : ℤ) + 1) 10 20 30 (5 / 16)
     let w4 := addError w3 3 3 ((1 : ℤ) + 1) ((1 : ℤ) + 1) 10 20 30 (1 / 16)
     chanSum 0 w4 = chanSum 0 (List.replicate 27 (0 : ℚ)) + 10 ∧
     chanSum 1 w4 = chanSum 1 (List.replicate 27 (0 : ℚ)) + 20 ∧
     chanSum 2 w4 = chanSum 2 (List.replicate 27 (0 : ℚ)) + 30)) :=
  ⟨by simp, by omega, le_rfl, by omega,
   fs_diffusion_conserves_error (List.replicate 27 (0 : ℚ)) 3 3 1 1 10 20 30
     (by simp) (by omega) le_rfl (by omega)⟩

/-! ### The source dither equals the spec's dither (C2) -/

lemma specDiffuseAt_length (buffer : List ℚ) (w h : ℕ) (x y : ℤ)
    (er eg eb f : ℚ) :
    (specDiffuseAt buffer w h x y er eg eb f).length = buffer.length := by
  unfold specDiffuseAt
  dsimp only
  split_ifs <;> simp [List.length_set]

/-- With a buffer of the dither's shape, the index guard of `addError` is
subsumed by the coordinate guard, and the two diffusion writes agree. -/
lemma addError_eq_specDiffuseAt (buffer : List ℚ) (w h : ℕ) (x y : ℤ)
    (er eg eb f : ℚ) (hlen : buffer.length = 3 * (w * h)) :
    addError buffer w h x y er eg eb f = specDiffuseAt buffer w h x y er eg eb f := by
  by_cases hin : 0 ≤ x ∧ 0 ≤ y ∧ x < (w : ℤ) ∧ y < (h : ℤ)
  · rw [addError_inBounds buffer w h x y er eg eb f hin.1 hin.2.2.1 hin.2.1 hin.2.2.2 hlen]
    unfold specDiffuseAt
    rw [if_pos hin]
  · have hA : x < 0 ∨ y < 0 ∨ (w : ℤ) ≤ x ∨ (h : ℤ) ≤ y := by omega
    unfold addError specDiffuseAt
    dsimp only
    rw [if_pos hA, if_neg hin]

/-- The four diffusion writes of one source pixel step equal the four
spec diffusion writes. -/
lemma diffuse4_eq (working : List ℚ) (w h x y : ℕ) (er eg eb : ℚ)
    (hlen : working.length = 3 * (w * h)) :
    addError (addError (addError (addError working w h ((x : ℤ) + 1) (y : ℤ) er eg eb (7 / 16))
        w h ((x : ℤ) - 1) ((y : ℤ) + 1) er eg eb (3 / 16))
        w h (x : ℤ) ((y : ℤ) + 1) er eg eb (5 / 16))
        w h ((x : ℤ) + 1) ((y : ℤ) + 1) er eg eb (1 / 16) =
      specDiffuseAt (specDiffuseAt (specDiffuseAt (specDiffuseAt working w h
          ((x : ℤ) + 1) (y : ℤ) er eg eb (7 / 16))
          w h ((x : ℤ) - 1) ((y : ℤ) + 1) er eg eb (3 / 16))
          w h (x : ℤ) ((y : ℤ) + 1) er eg eb (5 / 16))
          w h ((x : ℤ) + 1) ((y : ℤ) + 1) er eg eb (1 / 16) := by
  have e1 := addError_eq_specDiffuseAt working w h ((x : ℤ) + 1) (y : ℤ) er eg eb (7 / 16) hlen
  have l1 : (specDiffuseAt working w h ((x : ℤ) + 1) (y : ℤ) er eg eb (7 / 16)).length =
      3 * (w * h) := by rw [specDiffuseAt_length, hlen]
  have e2 := addError_eq_specDiffuseAt _ w h ((x : ℤ) - 1) ((y : ℤ) + 1) er eg eb (3 / 16) l1
  have l2 : (specDiffuseAt (specDiffuseAt working w h ((x : ℤ) + 1) (y : ℤ) er eg eb (7 / 16))
      w h ((x : ℤ) - 1) ((y : ℤ) + 1) er eg eb (3 / 16)).length = 3 * (w * h) := by
    rw [specDiffuseAt_length, l1]
  have e3 := addError_eq_specDiffuseAt _ w h (x : ℤ) ((y : ℤ) + 1) er eg eb (5 / 16) l2
  have l3 : (specDiffuseAt (specDiffuseAt (specDiffuseAt working w h
      ((x : ℤ) + 1) (y : ℤ) er eg eb (7 / 16))
      w h ((x : ℤ) - 1) ((y : ℤ) + 1) er eg eb (3 / 16))
      w h (x : ℤ) ((y : ℤ) + 1) er eg eb (5 / 16)).length = 3 * (w * h) := by
    rw [specDiffuseAt_length, l2]
  have e4 := addError_eq_specDiffuseAt _ w h ((x : ℤ) + 1) ((y : ℤ) + 1) er eg eb (1 / 16) l3
  rw [e1, e2, e3, e4]

/-- One source pixel step equals one spec pixel step. -/
lemma ditherPixel_eq_specPixelStep (pal : List PaletteColor) (w h x y : ℕ)
    (working : List ℚ) (hlen : working.length = 3 * (w * h)) :
    ditherPixel pal w h x y working = specPixelStep pal w h x y working := by
  unfold ditherPixel specPixelStep
  dsimp only
  exact Prod.ext (diffuse4_eq working w h x y _ _ _ hlen) rfl

lemma ditherPixel_length (pal : List PaletteColor) (w h x y : ℕ)
    (working : List ℚ) (hlen : working.length = 3 * (w * h)) :
    (ditherPixel pal w h x y working).1.length = working.length := by
  rw [ditherPixel_eq_specPixelStep pal w h x y working hlen]
  unfold specPixelStep
  dsimp only
  simp [specDiffuseAt_length]

/-- `specDitherGo` distributes over list append. -/
lemma specDitherGo_append (pal : List PaletteColor) (w h : ℕ)
    (l1 l2 : List (ℕ × ℕ)) (wk : List ℚ) :
    specDitherGo pal w h (l1 ++ l2) wk =
      ((specDitherGo pal w h l2 (specDitherGo pal w h l1 wk).1).1,
        (specDitherGo pal w h l1 wk).2 ++
          (specDitherGo pal w h l2 (specDitherGo pal w h l1 wk).1).2) := by
  induction l1 generalizing wk with
  | nil => simp [specDitherGo]
  | cons xy rest ih =>
    simp only [List.cons_append, specDitherGo, List.append_eq]
    rw [ih]
    simp [List.append_assoc]

lemma specPixelStep_length (pal : List PaletteColor) (w h x y : ℕ) (wk : List ℚ) :
    (specPixelStep pal w h x y wk).1.length = wk.length := by
  unfold specPixelStep
  dsimp only
  simp [specDiffuseAt_length]

lemma specDitherGo_length (pal : List PaletteColor) (w h : ℕ)
    (coords : List (ℕ × ℕ)) (wk : List ℚ) :
    (specDitherGo pal w h coords wk).1.length = wk.length := by
  induction coords generalizing wk with
  | nil => rfl
  | cons xy rest ih =>
    simp only [specDitherGo]
    rw [ih, specPixelStep_length]

/-- One source row equals the spec traversal of that row's coordinates. -/
lemma ditherRowGo_eq (pal : List PaletteColor) (w h y : ℕ) :
    ∀ (xs : List ℕ) (wk : List ℚ), wk.length = 3 * (w * h) →
      ditherRowGo pal w h y xs wk =
        specDitherGo pal w h (xs.map fun x => (x, y)) wk := by
  intro xs
  induction xs with
  | nil => intro wk _; rfl
  | cons x rest ih =>
    intro wk hlen
    simp only [ditherRowGo, List.map_cons, specDitherGo]
    rw [ditherPixel_eq_specPixelStep pal w h x y wk hlen,
      ih _ (by rw [specPixelStep_length, hlen])]

/-- The source row-by-row loop equals the spec traversal of the
row-major coordinate list. -/
lemma ditherRowsGo_eq (pal : List PaletteColor) (w h : ℕ) :
    ∀ (ys : List ℕ) (wk : List ℚ), wk.length = 3 * (w * h) →
      ditherRowsGo pal w h ys wk =
        specDitherGo pal w h
          (ys.flatMap fun y => (List.range w).map fun x => (x, y)) wk := by
  intro ys
  induction ys with
  | nil => intro wk _; rfl
  | cons y rest ih =>
    intro wk hlen
    simp only [ditherRowsGo, List.flatMap_cons]
    rw [specDitherGo_append, ditherRowGo_eq pal w h y (List.range w) wk hlen,
      ih _ (by rw [specDitherGo_length, hlen])]

lemma flatMap_three_length {α β : Type} (l : List α) (f g k : α → β) :
    (l.flatMap fun i => [f i, g i, k i]).length = 3 * l.length := by
  induction l with
  | nil => rfl
  | cons a rest ih =>
    simp only [List.flatMap_cons, List.length_append, ih]
    simp
    omega

lemma initWorking_length (pixels : List ℤ) (n : ℕ) :
    (initWorking pixels n).length = 3 * n := by
  unfold initWorking
  rw [flatMap_three_length]
  simp

/-- **C2** — `floydSteinbergDither` computes exactly the algorithm worded
by the spec: pixels in row-major order; the accumulated value (original
plus diffused error) clamped to `[0,255]` only at the moment of reading
for quantisation and never when accumulating into the float working
buffer; the nearest palette colour emitted; and the quantisation error
distributed right `7/16`, bottom-left `3/16`, bottom `5/16`, bottom-right
`1/16`, skipping targets outside the image bounds. -/
theorem floydSteinberg_matches_spec (pixels : List ℤ) (width height : ℕ)
    (palette : List PaletteColor) :
    floydSteinbergDither pixels width height palette =
      floydSteinbergSpec pixels width height palette := by
  unfold floydSteinbergDither floydSteinbergSpec rowMajorCoords
  dsimp only
  rw [ditherRowsGo_eq palette width height (List.range height)
    (initWorking pixels (width * height)) (initWorking_length pixels (width * height))]

/-! ### The dither output is palette-quantized and opaque (C10) -/

lemma flatMap_rgbaChunk_length (colors : List PaletteColor) :
    (colors.flatMap rgbaChunk).length = 4 * colors.length := by
  induction colors with
  | nil => rfl
  | cons c rest ih =>
    simp only [List.flatMap_cons, List.length_append, ih, rgbaChunk]
    simp
    omega

/-- Each emitted chunk of one pixel is an opaque palette colour. -/
lemma ditherPixel_snd (pal : List PaletteColor) (hne : pal ≠ [])
    (w h x y : ℕ) (wk : List ℚ) :
    ∃ c ∈ pal, (ditherPixel pal w h x y wk).2 = rgbaChunk c := by
  obtain ⟨hlt, -, -⟩ := findClosestColorIndex_first_argmin
    (clampChannel (wk.getD ((y * w + x) * 3) 0))
    (clampChannel (wk.getD ((y * w + x) * 3 + 1) 0))
    (clampChannel (wk.getD ((y * w + x) * 3 + 2) 0)) pal hne
  refine ⟨pal.getD (findClosestColorIndex
      (clampChannel (wk.getD ((y * w + x) * 3) 0))
      (clampChannel (wk.getD ((y * w + x) * 3 + 1) 0))
      (clampChannel (wk.getD ((y * w + x) * 3 + 2) 0)) pal) (0, 0, 0), ?_, rfl⟩
  rw [List.getD_eq_getElem _ _ hlt]
  exact List.getElem_mem hlt

lemma ditherRowGo_chunks (pal : List PaletteColor) (hne : pal ≠ [])
    (w h y : ℕ) :
    ∀ (xs : List ℕ) (wk : List ℚ),
      ∃ colors : List PaletteColor, colors.length = xs.length ∧
        (∀ c ∈ colors, c ∈ pal) ∧
        (ditherRowGo pal w h y xs wk).2 = colors.flatMap rgbaChunk := by
  intro xs
  induction xs with
  | nil => exact fun wk => ⟨[], rfl, by simp, rfl⟩
  | cons x rest ih =>
    intro wk
    obtain ⟨c, hc, hchunk⟩ := ditherPixel_snd pal hne w h x y wk
    obtain ⟨colors, hlen, hmem, hout⟩ := ih (ditherPixel pal w h x y wk).1
    refine ⟨c :: colors, by simp [hlen], ?_, ?_⟩
    · intro c' hc'
      rcases List.mem_cons.mp hc' with h | h
      · rw [h]; exact hc
      · exact hmem c' h
    · simp only [ditherRowGo, List.flatMap_cons, hchunk, hout]

lemma ditherRowsGo_chunks (pal : List PaletteColor) (hne : pal ≠ [])
    (w h : ℕ) :
    ∀ (ys : List ℕ) (wk : List ℚ),
      ∃ colors : List PaletteColor, colors.length = ys.length * w ∧
        (∀ c ∈ colors, c ∈ pal) ∧
        (ditherRowsGo pal w h ys wk).2 = colors.flatMap rgbaChunk := by
  intro ys
  induction ys with
  | nil => exact fun wk => ⟨[], by simp, by simp, rfl⟩
  | cons y rest ih =>
    intro wk
    obtain ⟨rowColors, hrlen, hrmem, hrout⟩ :=
      ditherRowGo_chunks pal hne w h y (List.range w) wk
    obtain ⟨restColors, hlen, hmem, hout⟩ :=
      ih (ditherRowGo pal w h y (List.range w) wk).1
    refine ⟨rowColors ++ restColors, ?_, ?_, ?_⟩
    · simp only [List.length_append, hrlen, hlen, List.length_range, List.length_cons]
      ring
    · intro c hc
      rcases List.mem_append.mp hc with h | h
      · exact hrmem c h
      · exact hmem c h
    · simp only [ditherRowsGo, List.flatMap_append, hrout, hout]

/-- **C10** — For every well-formed input image (RGBA bytes of length
`width*height*4`) and 4-colour palette, `floydSteinbergDither` returns a
buffer of length exactly `width*height*4` that is a concatenation of
`width*height` per-pixel RGBA chunks, each an entry of the palette with
alpha byte `255` (the output is fully palette-quantized and opaque). -/
theorem fs_output_palette_quantized_opaque (pixels : List ℤ)
    (width height : ℕ) (palette : List PaletteColor)
    (hpal : palette.length = 4) (_hpix : pixels.length = 4 * (width * height)) :
    (floydSteinbergDither pixels width height palette).length = width * height * 4 ∧
    ∃ colors : List PaletteColor, colors.length = width * height ∧
      (∀ c ∈ colors, c ∈ palette) ∧
      floydSteinbergDither pixels width height palette =
        colors.flatMap rgbaChunk := by
  have hne : palette ≠ [] := by
    intro hcon
    rw [hcon] at hpal
    simp at hpal
  obtain ⟨colors, hlen, hmem, hout⟩ :=
    ditherRowsGo_chunks palette hne width height (List.range height)
      (initWorking pixels (width * height))
  rw [List.length_range] at hlen
  have hfd : floydSteinbergDither pixels width height palette =
      colors.flatMap rgbaChunk := hout
  constructor
  · rw [hfd, flatMap_rgbaChunk_length, hlen]
    ring
  · exact ⟨colors, by rw [hlen]; ring, hmem, hfd⟩

/-- Witness for **C10**: a concrete 2×1 image against the PocketGrey
palette. -/
theorem fs_output_palette_quantized_opaque_witness :
    (PALETTES .pocketGrey).length = 4 ∧
    ([100, 100, 100, 255, 200, 200, 200, 255] : List ℤ).length = 4 * (2 * 1) ∧
    ((floydSteinbergDither [100, 100, 100, 255, 200, 200, 200, 255] 2 1
        (PALETTES .pocketGrey)).length = 2 * 1 * 4 ∧
      ∃ colors : List PaletteColor, colors.length = 2 * 1 ∧
        (∀ c ∈ colors, c ∈ PALETTES .pocketGrey) ∧
        floydSteinbergDither [100, 100, 100, 255, 200, 200, 200, 255] 2 1
            (PALETTES .pocketGrey) =
          colors.flatMap rgbaChunk) :=
  ⟨by decide, by decide,
   fs_output_palette_quantized_opaque [100, 100, 100, 255, 200, 200, 200, 255]
     2 1 (PALETTES .pocketGrey) (by decide) (by decide)⟩

/-! ### Crop invariants (C7) -/

lemma GBCAM_CROP_ASPECT_pos : (0 : ℚ) < GBCAM_CROP_ASPECT := by
  norm_num [GBCAM_CROP_ASPECT, GBCAM_SENSOR_WIDTH, GBCAM_SENSOR_HEIGHT]

/-- **C7** — For every input region and finite positive source
dimensions, the crop region returned by `clampAndNormalizeCrop` satisfies
the CropRegion invariant: `x ≥ 0`, `y ≥ 0`, `x + width ≤ 1`,
`y + height ≤ 1`, the width (in source pixels) is at least the minimum
width bound capped by the maximum width that fits, and the region's pixel
aspect ratio equals the fixed sensor aspect constant exactly. -/
theorem clampAndNormalizeCrop_invariant (region : CropRegion)
    (sourceW sourceH : ℚ) (hw : 0 < sourceW) (hh : 0 < sourceH) :
    0 ≤ (clampAndNormalizeCrop region sourceW sourceH).x ∧
    0 ≤ (clampAndNormalizeCrop region sourceW sourceH).y ∧
    (clampAndNormalizeCrop region sourceW sourceH).x +
      (clampAndNormalizeCrop region sourceW sourceH).width ≤ 1 ∧
    (clampAndNormalizeCrop region sourceW sourceH).y +
      (clampAndNormalizeCrop region sourceW sourceH).height ≤ 1 ∧
    min (max (sourceW * GBCAM_MIN_CROP_WIDTH_NORM) 1)
        (min sourceW (sourceH * GBCAM_CROP_ASPECT)) ≤
      (clampAndNormalizeCrop region sourceW sourceH).width * sourceW ∧
    (clampAndNormalizeCrop region sourceW sourceH).width * sourceW =
      GBCAM_CROP_ASPECT *
        ((clampAndNormalizeCrop region sourceW sourceH).height * sourceH) := by
  have haspect : (0 : ℚ) < GBCAM_CROP_ASPECT := GBCAM_CROP_ASPECT_pos
  unfold clampAndNormalizeCrop
  rw [if_neg (not_not.mpr ⟨hw, hh, haspect⟩)]
  unfold toSourcePixels fromSourcePixels cropClamp
  rw [if_neg (not_not.mpr ⟨hw, hh⟩)]
  dsimp only
  set minWidthPx := max (sourceW * GBCAM_MIN_CROP_WIDTH_NORM) 1 with hminW
  set maxWidthPx := min sourceW (sourceH * GBCAM_CROP_ASPECT) with hmaxW
  set widthFromInput :=
    max (region.width * sourceW) (region.height * sourceH * GBCAM_CROP_ASPECT)
    with hwfi
  set W := max (min minWidthPx maxWidthPx) (min maxWidthPx widthFromInput) with hW
  set H := W / GBCAM_CROP_ASPECT with hH
  have hminWpos : 0 < minWidthPx := lt_of_lt_of_le one_pos (le_max_right _ _)
  have hmaxWpos : 0 < maxWidthPx := lt_min hw (mul_pos hh haspect)
  have f1 : min minWidthPx maxWidthPx ≤ W := le_max_left _ _
  have f2 : W ≤ maxWidthPx := max_le (min_le_right _ _) (min_le_left _ _)
  have f3 : 0 < W := lt_of_lt_of_le (lt_min hminWpos hmaxWpos) f1
  have f4 : W ≤ sourceW := le_trans f2 (min_le_left _ _)
  have f5 : H ≤ sourceH := by
    rw [hH, div_le_iff₀ haspect]
    exact le_trans f2 (min_le_right _ _)
  have f5' : 0 < H := div_pos f3 haspect
  have hmaxX : max 0 (sourceW - W) = sourceW - W := max_eq_right (by linarith)
  have hmaxY : max 0 (sourceH - H) = sourceH - H := max_eq_right (by linarith)
  rw [hmaxX, hmaxY]
  set X := max 0 (min (sourceW - W) (region.x * sourceW)) with hX
  set Y := max 0 (min (sourceH - H) (region.y * sourceH)) with hY
  have hX0 : 0 ≤ X := le_max_left _ _
  have hY0 : 0 ≤ Y := le_max_left _ _
  have hXle : X ≤ sourceW - W := max_le (by linarith) (min_le_left _ _)
  have hYle : Y ≤ sourceH - H := max_le (by linarith) (min_le_left _ _)
  refine ⟨div_nonneg hX0 (le_of_lt hw), div_nonneg hY0 (le_of_lt hh), ?_, ?_, ?_, ?_⟩
  · rw [div_add_div_same, div_le_one hw]
    linarith
  · rw [div_add_div_same, div_le_one hh]
    linarith
  · rw [div_mul_cancel₀ _ (ne_of_gt hw)]
    exact f1
  · rw [div_mul_cancel₀ _ (ne_of_gt hw), div_mul_cancel₀ _ (ne_of_gt hh), hH,
      mul_comm, div_mul_cancel₀ _ (ne_of_gt haspect)]

/-- Witness for **C7**: a concrete oversized region against a 100×100
source. -/
theorem clampAndNormalizeCrop_invariant_witness :
    (0 : ℚ) < 100 ∧
    (0 ≤ (clampAndNormalizeCrop ⟨(3 : ℚ) / 10, 1 / 2, 9 / 10, 9 / 10⟩ 100 100).x ∧
      0 ≤ (clampAndNormalizeCrop ⟨(3 : ℚ) / 10, 1 / 2, 9 / 10, 9 / 10⟩ 100 100).y ∧
      (clampAndNormalizeCrop ⟨(3 : ℚ) / 10, 1 / 2, 9 / 10, 9 / 10⟩ 100 100).x +
        (clampAndNormalizeCrop ⟨(3 : ℚ) / 10, 1 / 2, 9 / 10, 9 / 10⟩ 100 100).width ≤ 1 ∧
      (clampAndNormalizeCrop ⟨(3 : ℚ) / 10, 1 / 2, 9 / 10, 9 / 10⟩ 100 100).y +
        (clampAndNormalizeCrop ⟨(3 : ℚ) / 10, 1 / 2, 9 / 10, 9 / 10⟩ 100 100).height ≤ 1 ∧
      min (max ((100 : ℚ) * GBCAM_MIN_CROP_WIDTH_NORM) 1)
          (min (100 : ℚ) (100 * GBCAM_CROP_ASPECT)) ≤
        (clampAndNormalizeCrop ⟨(3 : ℚ) / 10, 1 / 2, 9 / 10, 9 / 10⟩ 100 100).width * 100 ∧
      (clampAndNormalizeCrop ⟨(3 : ℚ) / 10, 1 / 2, 9 / 10, 9 / 10⟩ 100 100).width * 100 =
        GBCAM_CROP_ASPECT *
          ((clampAndNormalizeCrop ⟨(3 : ℚ) / 10, 1 / 2, 9 / 10, 9 / 10⟩ 100 100).height *
            100)) :=
  ⟨by norm_num,
   clampAndNormalizeCrop_invariant ⟨(3 : ℚ) / 10, 1 / 2, 9 / 10, 9 / 10⟩ 100 100
     (by norm_num) (by norm_num)⟩

/-! ### Frame extraction: counts and timestamps (C1) -/

lemma captureBurstFuel_length_le (t s iv : ℚ) (total : ℕ) :
    ∀ (fuel : ℕ) (frames : List ℚ) (next : ℚ), frames.length ≤ total →
      (captureBurstFuel t s iv total fuel frames next).1.length ≤ total := by
  intro fuel
  induction fuel with
  | zero => intro frames next h; exact h
  | succ n ih =>
    intro frames next h
    unfold captureBurstFuel
    split_ifs with hc
    · exact ih _ _ (by simp only [List.length_append, List.length_singleton]; omega)
    · exact h

lemma captureBurstFuel_next_invariant (t s iv : ℚ) (total : ℕ) :
    ∀ (fuel : ℕ) (frames : List ℚ) (next : ℚ),
      next = s + (frames.length : ℚ) * iv →
      (captureBurstFuel t s iv total fuel frames next).2 =
        s + ((captureBurstFuel t s iv total fuel frames next).1.length : ℚ) * iv := by
  intro fuel
  induction fuel with
  | zero => intro frames next h; exact h
  | succ n ih =>
    intro frames next h
    unfold captureBurstFuel
    split_ifs with hc
    · exact ih _ _ (by push_cast; simp only [List.length_append, List.length_singleton]; push_cast; ring)
    · exact h

lemma captureBurstFuel_append (t s iv : ℚ) (total : ℕ) :
    ∀ (fuel : ℕ) (frames : List ℚ) (next : ℚ),
      ∃ k, (captureBurstFuel t s iv total fuel frames next).1 =
        frames ++ List.replicate k t := by
  intro fuel
  induction fuel with
  | zero => intro frames next; exact ⟨0, by simp [captureBurstFuel]⟩
  | succ n ih =>
    intro frames next
    unfold captureBurstFuel
    split_ifs with hc
    · obtain ⟨k, hk⟩ := ih (frames ++ [t]) (s + ((frames.length + 1 : ℕ) : ℚ) * iv)
      exact ⟨k + 1, by
        rw [hk, List.append_assoc]
        simp [List.replicate_succ]⟩
    · exact ⟨0, by simp⟩

lemma captureBurstFuel_all_ge (t s iv : ℚ) (total : ℕ) (hiv : 0 ≤ iv) :
    ∀ (fuel : ℕ) (frames : List ℚ) (next : ℚ),
      next = s + (frames.length : ℚ) * iv →
      (∀ u ∈ frames, s ≤ u) →
      ∀ u ∈ (captureBurstFuel t s iv total fuel frames next).1, s ≤ u := by
  intro fuel
  induction fuel with
  | zero => intro frames next _ hall; exact hall
  | succ n ih =>
    intro frames next hnext hall
    unfold captureBurstFuel
    split_ifs with hc
    · refine ih _ _ (by push_cast; simp only [List.length_append, List.length_singleton]; push_cast; ring) ?_
      intro u hu
      rcases List.mem_append.mp hu with h | h
      · exact hall u h
      · have hst : s ≤ t := by
          have h1 : s ≤ next := by
            rw [hnext]
            have : (0 : ℚ) ≤ (frames.length : ℚ) * iv :=
              mul_nonneg (by positivity) hiv
            linarith
          linarith [hc.1]
        rw [List.mem_singleton.mp h]
        exact hst
    · exact hall

lemma captureBurstFuel_sorted (t s iv : ℚ) (total : ℕ) :
    ∀ (fuel : ℕ) (frames : List ℚ) (next : ℚ),
      frames.Sorted (· ≤ ·) → (∀ u ∈ frames, u ≤ t) →
      (captureBurstFuel t s iv total fuel frames next).1.Sorted (· ≤ ·) ∧
      (∀ u ∈ (captureBurstFuel t s iv total fuel frames next).1, u ≤ t) := by
  intro fuel
  induction fuel with
  | zero => intro frames next hs hb; exact ⟨hs, hb⟩
  | succ n ih =>
    intro frames next hs hb
    unfold captureBurstFuel
    split_ifs with hc
    · refine ih (frames ++ [t]) (s + ((frames.length + 1 : ℕ) : ℚ) * iv) ?_ ?_
      · exact List.pairwise_append.mpr ⟨hs, List.sorted_singleton t,
          fun a ha b hbmem => by
            rw [List.mem_singleton.mp hbmem]
            exact hb a ha⟩
      · intro u hu
        rcases List.mem_append.mp hu with h | h
        · exact hb u h
        · rw [List.mem_singleton.mp h]
    · exact ⟨hs, hb⟩

lemma captureBurstFuel_fills (t s iv : ℚ) (total : ℕ) (hiv : 0 ≤ iv) :
    ∀ (fuel : ℕ) (frames : List ℚ) (next : ℚ),
      total ≤ fuel + frames.length →
      frames.length ≤ total →
      next = s + (frames.length : ℚ) * iv →
      s + (((total - 1 : ℕ)) : ℚ) * iv ≤ t →
      (captureBurstFuel t s iv total fuel frames next).1.length = total := by
  intro fuel
  induction fuel with
  | zero =>
    intro frames next h1 h2 _ _
    exact (by omega : frames.length = total)
  | succ n ih =>
    intro frames next h1 h2 hnext hth
    by_cases hlt : frames.length < total
    · have hguard : next ≤ t := by
        rw [hnext]
        have hcast : (frames.length : ℚ) * iv ≤ (((total - 1 : ℕ)) : ℚ) * iv :=
          mul_le_mul_of_nonneg_right (Nat.cast_le.mpr (by omega)) hiv
        linarith
      unfold captureBurstFuel
      rw [if_pos ⟨hguard, hlt⟩]
      exact ih (frames ++ [t]) (s + ((frames.length + 1 : ℕ) : ℚ) * iv)
        (by simp only [List.length_append, List.length_singleton]; omega)
        (by simp only [List.length_append, List.length_singleton]; omega)
        (by simp only [List.length_append, List.length_singleton])
        hth
    · unfold captureBurstFuel
      rw [if_neg (by tauto)]
      exact (by omega : frames.length = total)

lemma extractTicksGo_stop (s iv e : ℚ) (total : ℕ) (ticks frames : List ℚ)
    (next : ℚ) (h : total ≤ frames.length) :
    extractTicksGo s iv e total ticks frames next = frames := by
  cases ticks with
  | nil => rfl
  | cons t ts =>
    unfold extractTicksGo
    rw [if_pos (Or.inl h)]

lemma extractTicksGo_props (s iv e : ℚ) (total : ℕ) (hiv : 0 ≤ iv) :
    ∀ (ticks frames : List ℚ) (next : ℚ),
      ticks.Sorted (· ≤ ·) →
      frames.length ≤ total →
      next = s + (frames.length : ℚ) * iv →
      (∀ u ∈ frames, s ≤ u) →
      frames.Sorted (· ≤ ·) →
      (∀ u ∈ frames, ∀ t' ∈ ticks, u ≤ t') →
      (extractTicksGo s iv e total ticks frames next).length ≤ total ∧
      (∀ u ∈ extractTicksGo s iv e total ticks frames next, s ≤ u) ∧
      (extractTicksGo s iv e total ticks frames next).Sorted (· ≤ ·) := by
  intro ticks
  induction ticks with
  | nil => intro frames next _ h2 _ h4 h5 _; exact ⟨h2, h4, h5⟩
  | cons t ts ih =>
    intro frames next hticks h2 hnext h4 h5 hcross
    unfold extractTicksGo
    split_ifs with hstop
    · exact ⟨h2, h4, h5⟩
    · simp only [captureBurst]
      obtain ⟨k, hk⟩ := captureBurstFuel_append t s iv total (total - frames.length) frames next
      have hts : ts.Sorted (· ≤ ·) := (List.sorted_cons.mp hticks).2
      have htts : ∀ t' ∈ ts, t ≤ t' := (List.sorted_cons.mp hticks).1
      refine ih _ _ hts
        (captureBurstFuel_length_le t s iv total _ frames next h2)
        (captureBurstFuel_next_invariant t s iv total _ frames next hnext)
        (captureBurstFuel_all_ge t s iv total hiv _ frames next hnext h4)
        (captureBurstFuel_sorted t s iv total _ frames next h5
          (fun u hu => hcross u hu t (List.mem_cons_self t ts))).1
        ?_
      intro u hu t' ht'
      rw [hk] at hu
      rcases List.mem_append.mp hu with h | h
      · exact hcross u h t' (List.mem_cons_of_mem t ht')
      · rw [(List.eq_of_mem_replicate h : u = t)]
        exact htts t' ht'

lemma extractTicksGo_exact (s iv e : ℚ) (total : ℕ) (hiv : 0 ≤ iv) :
    ∀ (pre post frames : List ℚ) (next : ℚ),
      (∀ t' ∈ pre, t' < e) →
      (∃ tS ∈ pre, s + (((total - 1 : ℕ)) : ℚ) * iv ≤ tS) →
      frames.length ≤ total →
      next = s + (frames.length : ℚ) * iv →
      (extractTicksGo s iv e total (pre ++ post) frames next).length = total := by
  intro pre
  induction pre with
  | nil =>
    intro post frames next _ hex _ _
    obtain ⟨tS, htS, -⟩ := hex
    exact absurd htS (List.not_mem_nil tS)
  | cons t pre' ih =>
    intro post frames next hlt hex h2 hnext
    rw [List.cons_append]
    unfold extractTicksGo
    split_ifs with hstop
    · rcases hstop with hstop | hstop
      · omega
      · exact absurd hstop (not_le.mpr (hlt t (List.mem_cons_self t pre')))
    · simp only [captureBurst]
      obtain ⟨tS, htS, hth⟩ := hex
      rcases List.mem_cons.mp htS with hts | hts
      · have hfill : (captureBurstFuel t s iv total (total - frames.length) frames next).1.length =
            total :=
          captureBurstFuel_fills t s iv total hiv _ frames next (by omega) h2 hnext
            (hts ▸ hth)
        rw [extractTicksGo_stop s iv e total _ _ _ (le_of_eq hfill.symm)]
        exact hfill
      · exact ih post _ _ (fun u hu => hlt u (List.mem_cons_of_mem t hu))
          ⟨tS, hts, hth⟩
          (captureBurstFuel_length_le t s iv total _ frames next h2)
          (captureBurstFuel_next_invariant t s iv total _ frames next hnext)

/-- **C1** counterexample — the claim's exact frame count fails on the
code as stated: with trim `[0, 1)` of a 1-second source and target rate 2
(so `floor((e−s)·f) = 2`), the monotone in-range presented-frame tick
sequence `0, 1` captures exactly one frame, because the callback that
observes source time `1` hits the `currentTime >= endTime` termination
check before the second capture is due. -/
theorem extractFrames_exact_count_counterexample :
    totalFramesFor 0 1 2 = 2 ∧
    extractFramesSim [0, 1] 0 1 2 = [0] ∧
    (extractFramesSim [0, 1] 0 1 2).length ≠ (totalFramesFor 0 1 2).toNat := by
  have h : extractFramesSim [0, 1] 0 1 2 = [0] := by
    norm_num [extractFramesSim, totalFramesFor, extractTicksGo, captureBurst,
      captureBurstFuel]
  refine ⟨by norm_num [totalFramesFor], h, ?_⟩
  rw [h]
  norm_num [totalFramesFor]
  decide

/-- **C1** (amended) — For every video source, trim range `[s, e)` and
target rate `f`, the extraction loop of `extractFrames` /
`extractFramesStreaming` captures at most `floor((e−s)·f)` frames, and the
captured `sourceTimestampSeconds` are non-decreasing with every timestamp
`≥ s` (for any monotone sequence of observed playback times); the count
equals `floor((e−s)·f)` exactly when some presented-frame callback, fired
before the source time passes `e`, observes a time at or past the last
capture instant `s + (floor((e−s)·f) − 1)/f`. -/
theorem extractFrames_count_bound_and_timestamps
    (ticks : List ℚ) (startTime endTime fps : ℚ)
    (hfps : 0 < fps) (hticks : ticks.Sorted (· ≤ ·)) :
    (extractFramesSim ticks startTime endTime fps).length ≤
      (totalFramesFor startTime endTime fps).toNat ∧
    (∀ u ∈ extractFramesSim ticks startTime endTime fps, startTime ≤ u) ∧
    (extractFramesSim ticks startTime endTime fps).Sorted (· ≤ ·) ∧
    (∀ pre post : List ℚ, ticks = pre ++ post →
      (∀ t' ∈ pre, t' < endTime) →
      (∃ tS ∈ pre, startTime +
          ((((totalFramesFor startTime endTime fps).toNat - 1 : ℕ)) : ℚ) *
            (1 / fps) ≤ tS) →
      (extractFramesSim ticks startTime endTime fps).length =
        (totalFramesFor startTime endTime fps).toNat) := by
  have hiv : (0 : ℚ) ≤ 1 / fps := by positivity
  unfold extractFramesSim
  dsimp only
  split_ifs with htot
  · have hz : (totalFramesFor startTime endTime fps).toNat = 0 :=
      Int.toNat_of_nonpos htot
    exact ⟨by simp, by simp, List.sorted_nil, fun pre post _ _ _ => by simp [hz]⟩
  · have hprops := extractTicksGo_props startTime (1 / fps) endTime
      (totalFramesFor startTime endTime fps).toNat hiv ticks [] startTime
      hticks (by simp) (by simp) (by simp) List.sorted_nil (by simp)
    refine ⟨hprops.1, hprops.2.1, hprops.2.2, ?_⟩
    intro pre post hsplit hlt hex
    rw [hsplit]
    exact extractTicksGo_exact startTime (1 / fps) endTime
      (totalFramesFor startTime endTime fps).toNat hiv pre post [] startTime
      hlt hex (by simp) (by simp)

/-- Witness for the amended **C1**: three monotone ticks at rate 2 over
trim `[0, 1)`. -/
theorem extractFrames_count_bound_witness :
    (0 : ℚ) < 2 ∧ ([0, (1 : ℚ) / 2, 9 / 10] : List ℚ).Sorted (· ≤ ·) ∧
    ((extractFramesSim [0, (1 : ℚ) / 2, 9 / 10] 0 1 2).length ≤
        (totalFramesFor 0 1 2).toNat ∧
      (∀ u ∈ extractFramesSim [0, (1 : ℚ) / 2, 9 / 10] 0 1 2, (0 : ℚ) ≤ u) ∧
      (extractFramesSim [0, (1 : ℚ) / 2, 9 / 10] 0 1 2).Sorted (· ≤ ·) ∧
      (∀ pre post : List ℚ, ([0, (1 : ℚ) / 2, 9 / 10] : List ℚ) = pre ++ post →
        (∀ t' ∈ pre, t' < 1) →
        (∃ tS ∈ pre, (0 : ℚ) +
            ((((totalFramesFor 0 1 2).toNat - 1 : ℕ)) : ℚ) * (1 / 2) ≤ tS) →
        (extractFramesSim [0, (1 : ℚ) / 2, 9 / 10] 0 1 2).length =
          (totalFramesFor 0 1 2).toNat)) :=
  ⟨by norm_num, by norm_num [List.sorted_cons],
   extractFrames_count_bound_and_timestamps [0, (1 : ℚ) / 2, 9 / 10] 0 1 2
     (by norm_num) (by norm_num [List.sorted_cons])⟩

/-! ### Offline vs live audio chain (C8) -/

lemma previewBiquadNode_foldl (c : BiquadCoefficients) :
    ∀ (l : List ℚ) (a b d e : ℚ) (acc : List ℚ),
      (l.foldl
        (fun (st : (ℚ × ℚ) × (ℚ × ℚ) × List ℚ) x0 =>
          let x1 := st.1.1
          let x2 := st.1.2
          let y1 := st.2.1.1
          let y2 := st.2.1.2
          let y0 := c.b0 * x0 + c.b1 * x1 + c.b2 * x2 - c.a1 * y1 - c.a2 * y2
          ((x0, x1), (y0, y1), st.2.2 ++ [y0]))
        ((a, b), (d, e), acc)).2.2 = acc ++ applyBiquadGo c l a b d e := by
  intro l
  induction l with
  | nil => intro a b d e acc; simp [applyBiquadGo]
  | cons x0 rest ih =>
    intro a b d e acc
    simp only [List.foldl_cons]
    rw [ih]
    simp [applyBiquadGo, List.append_assoc]

/-- The modelled live biquad node computes the same output sequence as
the offline `applyBiquadInPlace`. -/
lemma previewBiquadNode_eq (c : BiquadCoefficients) (l : List ℚ) :
    previewBiquadNode c l = applyBiquadInPlace l c := by
  unfold previewBiquadNode applyBiquadInPlace
  rw [previewBiquadNode_foldl c l 0 0 0 0 []]
  simp

lemma clampAudioSample_abs_le (s : ℚ) : |clampAudioSample s| ≤ 1 := by
  unfold clampAudioSample
  rw [abs_le]
  constructor
  · exact le_max_left _ _
  · exact max_le (by norm_num) (min_le_left _ _)

lemma clampAudioSample_eq_self (s : ℚ) (h : |s| ≤ 1) : clampAudioSample s = s := by
  rw [abs_le] at h
  unfold clampAudioSample
  rw [min_eq_right h.2, max_eq_right h.1]

/-- The soft-clip curve maps `[-1, 1]` into `[-1, 1]` whenever
`0 < π-value ≤ 9`. -/
lemma applySoftClip_abs_le (piv x dist : ℚ) (hpiv0 : 0 < piv) (hpiv9 : piv ≤ 9)
    (hd : 0 ≤ dist) (hx : |x| ≤ 1) : |applySoftClip piv x dist| ≤ 1 := by
  unfold applySoftClip
  split_ifs with h0
  · exact hx
  · have hk : (0 : ℚ) ≤ dist / 100 * 50 := by positivity
    set k := dist / 100 * 50 with hkdef
    set t := |x| with htdef
    have ht0 : 0 ≤ t := abs_nonneg x
    have ht1 : t ≤ 1 := hx
    have hD : (0 : ℚ) < piv + k * t := by positivity
    have hxle : x ≤ t := le_abs_self x
    have hxge : -t ≤ x := neg_abs_le x
    have hcoef : (0 : ℚ) ≤ (3 + k) * (20 * (piv / 180)) := by positivity
    rw [abs_le]
    constructor
    · rw [le_div_iff₀ hD]
      nlinarith [mul_nonneg hcoef (by linarith : (0 : ℚ) ≤ x + t),
        mul_nonneg (mul_nonneg hk ht0) (by linarith : (0 : ℚ) ≤ 9 - piv),
        mul_nonneg (le_of_lt hpiv0) (by linarith : (0 : ℚ) ≤ 1 - t)]
    · rw [div_le_one hD]
      nlinarith [mul_nonneg hcoef (by linarith : (0 : ℚ) ≤ t - x),
        mul_nonneg (mul_nonneg hk ht0) (by linarith : (0 : ℚ) ≤ 9 - piv),
        mul_nonneg (le_of_lt hpiv0) (by linarith : (0 : ℚ) ≤ 1 - t)]

/-- Under the documented distortion range, the offline soft clip equals
the modelled live waveshaper curve. -/
lemma applySoftClip_eq_waveShaper (piv dist x : ℚ) (hd : 0 ≤ dist) :
    applySoftClip piv x dist = previewWaveShaper piv dist x := by
  unfold applySoftClip previewWaveShaper
  by_cases h0 : dist ≤ 0
  · have hz : dist = 0 := le_antisymm h0 hd
    rw [if_pos h0, if_pos (by rw [hz]; norm_num)]
  · rw [if_neg h0, if_neg (by
      intro hcon
      exact h0 (le_of_eq (by
        field_simp at hcon
        rw [hcon])))]

/-- The fused offline sample-and-hold + soft-clip loop equals the live
worklet scan followed by the waveshaper map. -/
lemma bitcrushDistortGo_eq_worklet (piv qs dist : ℚ) (red : ℕ)
    (hpiv0 : 0 < piv) (hpiv9 : piv ≤ 9) (hd0 : 0 ≤ dist) :
    ∀ (l : List ℚ) (i : ℕ) (held : ℚ), |held| ≤ 1 →
      bitcrushDistortGo piv qs dist red l i held =
        (bitcrusherGo qs red l i held).map (previewWaveShaper piv dist) := by
  intro l
  induction l with
  | nil => intro i held _; rfl
  | cons x rest ih =>
    intro i held hheld
    unfold bitcrushDistortGo bitcrusherGo
    dsimp only
    have hheld' : |if i % red = 0 then
        clampAudioSample (((jsRoundAudio (x / qs)) : ℚ) * qs) else held| ≤ 1 := by
      split_ifs with hc
      · exact clampAudioSample_abs_le _
      · exact hheld
    rw [List.map_cons, ih (i + 1) _ hheld',
      applySoftClip_eq_waveShaper piv dist _ hd0,
      clampAudioSample_eq_self _ (by
        rw [← applySoftClip_eq_waveShaper piv dist _ hd0]
        exact applySoftClip_abs_le piv _ dist hpiv0 hpiv9 hd0 hheld')]

/-- **C8** — The offline audio chain applied at export (RBJ-coefficient
direct-form biquad highpass then lowpass per channel, sample-and-hold for
N ticks with quantisation to `2^bitDepth` levels, then the soft-clip
curve `y = (3+k)·x·c/(π + k·|x|)` with `k = (distortion/100)·50`) is
numerically equal, sample for sample, to the live preview chain (highpass
biquad → lowpass biquad → bitcrusher worklet → waveshaper → unit gain)
driven by the same settings, for every input PCM channel; stated for any
π-value in `(0, 9]` (π itself qualifies), any shared biquad design values
`cos w0`/`sin w0`/`Q`, any integer bit depth, any sample-rate reduction
`≤ 16` (the live worklet hard-codes 6), and any distortion percentage in
the documented range `[0, 100]`. -/
theorem offline_audio_chain_matches_live
    (piv cosHp sinHp cosLp sinLp q : ℚ) (bitDepth srr : ℤ) (dist : ℚ)
    (channel : List ℚ)
    (hpiv0 : 0 < piv) (hpiv9 : piv ≤ 9) (hd0 : 0 ≤ dist) (hd100 : dist ≤ 100)
    (hsrr : srr ≤ 16) :
    offlineAudioChain piv (createBiquadCoefficients true cosHp sinHp q)
        (createBiquadCoefficients false cosLp sinLp q) bitDepth srr dist channel =
      liveAudioChain piv (createBiquadCoefficients true cosHp sinHp q)
        (createBiquadCoefficients false cosLp sinLp q) bitDepth srr dist channel := by
  unfold offlineAudioChain liveAudioChain applyPreviewEqFilters
    applyPreviewBitcrushAndDistortion bitcrusherProcess
  dsimp only
  rw [previewBiquadNode_eq, previewBiquadNode_eq]
  have hdist : max 0 (min 100 dist) = dist := by
    rw [min_eq_right hd100, max_eq_right hd0]
  have hred : (max 1 srr).toNat = (max 1 (min 16 srr)).toNat := by
    rw [min_eq_right hsrr]
  rw [hdist, ← hred,
    bitcrushDistortGo_eq_worklet piv _ dist _ hpiv0 hpiv9 hd0 _ 0 0 (by norm_num)]
  simp [mul_one]

/-- Witness for **C8**: a concrete channel and settings (π-value
`3.14159…`, 500 Hz/3500 Hz design values abstracted as rational cos/sin
samples, bit depth 6, reduction 6, 30 % distortion). -/
theorem offline_audio_chain_matches_live_witness :
    (0 : ℚ) < 314159 / 100000 ∧ (314159 : ℚ) / 100000 ≤ 9 ∧
    (0 : ℚ) ≤ 30 ∧ (30 : ℚ) ≤ 100 ∧ (6 : ℤ) ≤ 16 ∧
    offlineAudioChain (314159 / 100000)
        (createBiquadCoefficients true (99 / 100) (1 / 7) (707 / 1000))
        (createBiquadCoefficients false (9 / 10) (2 / 5) (707 / 1000))
        6 6 30 [1 / 2, -3 / 4, 1 / 4, 0] =
      liveAudioChain (314159 / 100000)
        (createBiquadCoefficients true (99 / 100) (1 / 7) (707 / 1000))
        (createBiquadCoefficients false (9 / 10) (2 / 5) (707 / 1000))
        6 6 30 [1 / 2, -3 / 4, 1 / 4, 0] :=
  ⟨by norm_num, by norm_num, by norm_num, by norm_num, by norm_num,
   offline_audio_chain_matches_live (314159 / 100000) (99 / 100) (1 / 7)
     (9 / 10) (2 / 5) (707 / 1000) 6 6 30 [1 / 2, -3 / 4, 1 / 4, 0]
     (by norm_num) (by norm_num) (by norm_num) (by norm_num) (by norm_num)⟩

end PocketFrame
